import Mathlib

/-!
# A verification development for the rst2gemtext translator

This file embeds the core of `rst2gemtext.py` — a reStructuredText to
Gemtext translator — as executable Lean definitions, and proves properties
of the embedding.

Modelling conventions:

* Python strings are Lean `String`s.  Python string routines that Lean's
  built-ins do not reduce well on (`str.replace`, `str.split`, `str.strip`,
  `str.upper`, …) are implemented structurally over `List Char`, with the
  same semantics.
* Fallible Python code (exceptions: `KeyError`, `AttributeError`,
  `IndexError`, `TypeError`, `ValueError`, …) is modelled in the `Option`
  monad; `none` means the Python code raises.
* docutils source nodes are modelled by `RstNode`.  Object identity of a
  source node (Python `is`) is modelled by a numeric `id` field; the
  well-formedness hypothesis used by the traversal theorems is that the
  ids occurring in one tree are pairwise distinct, which is exactly what
  object identity gives.  `astext()` — a docutils (external collaborator)
  method — is modelled as node-supplied data in the `astext` field.
* Gemtext nodes (`GNode`) carry a `gemId`: a serial number allocated by
  the translator state, modelling Python object identity of the produced
  nodes, which the translator uses through its `_current_node` pointer.
-/

/-! ## Python string primitives -/

/-- `convert_to_unix_end_of_line`: implements
`text.replace("\r\n", "\n").replace("\r", "\n")` by a single left-to-right
scan over the characters (the two are equivalent: the first replacement
rewrites every CR LF pair to LF, the second rewrites every remaining CR). -/
def unixEolChars : List Char → List Char
  | [] => []
  | '\r' :: '\n' :: rest => '\n' :: unixEolChars rest
  | '\r' :: rest => '\n' :: unixEolChars rest
  | c :: rest => c :: unixEolChars rest

def convertToUnixEol (s : String) : String :=
  String.mk (unixEolChars s.toList)

/-- `remove_newlines`: normalize end of lines, then replace each `\n` by a
space (`.replace("\n", " ")` on a single-character pattern is a character
map). -/
def removeNewlines (s : String) : String :=
  String.mk ((unixEolChars s.toList).map (fun c => if c == '\n' then ' ' else c))

/-- Python `text.split("\n")` (always at least one piece). -/
def splitNlChars : List Char → List (List Char)
  | [] => [[]]
  | '\n' :: rest => [] :: splitNlChars rest
  | c :: rest =>
    match splitNlChars rest with
    | [] => [[c]]
    | p :: ps => (c :: p) :: ps

def splitNl (s : String) : List String :=
  (splitNlChars s.toList).map String.mk

/-- The character class of Python's regex `\s` / `str.strip`. -/
def pyIsSpace (c : Char) : Bool :=
  c == ' ' || c == '\t' || c == '\n' || c == '\r' || c == '\x0b' || c == '\x0c'

/-- Python `str.strip()`. -/
def pyStrip (s : String) : String :=
  String.mk (((s.toList.dropWhile pyIsSpace).reverse.dropWhile pyIsSpace).reverse)

/-- Python `str.upper()` (ASCII, which is all the code uses it on). -/
def strUpper (s : String) : String :=
  String.mk (s.toList.map Char.toUpper)

/-- Python `str.lower()` (ASCII, which is all the code uses it on). -/
def strLower (s : String) : String :=
  String.mk (s.toList.map Char.toLower)

/-- Python list/str slicing `l[a:b]` with int indices (negative indices
count from the end, out-of-range indices are clamped). -/
def pySlice {α : Type} (l : List α) (a b : Int) : List α :=
  let n : Int := l.length
  let norm : Int → Nat := fun x => (if x < 0 then max (n + x) 0 else min x n).toNat
  (l.take (norm b)).drop (norm a)

/-- Truthiness of an optional Python string (`None` and `""` are falsy). -/
def truthyStr : Option String → Bool
  | none => false
  | some s => s ≠ ""

/-- Python `"%s"` formatting of a string-or-None value. -/
def pyShow : Option String → String
  | none => "None"
  | some s => s

/-- 80 dashes, `"-" * 80`. -/
def dashes80 : String := String.mk (List.replicate 80 '-')

/-! ## Counter formatting (`EnumaratedListNode._to_*`) -/

/-- The glyph table of `_to_loweralpha`. -/
def alphaGlyphs : List Char := "abcdefghijklmnopqrstuvwxyz".toList

/-- The digit list produced by `_to_loweralpha`'s loop, most significant
digit first (the loop pushes least-significant digits and reverses at the
end; this recursion produces the reversed list directly).  The first
argument is fuel bounding the loop iterations; `number` shrinks to
`(number - 1) / 26` each iteration, so `number` itself is always enough
fuel (see `toLoweralphaGo_fuel`). -/
def toLoweralphaGo : Nat → Nat → List Nat
  | _, 0 => []
  | 0, _ + 1 => []
  | f + 1, n + 1 => toLoweralphaGo f (n / 26) ++ [n % 26]

def toLoweralphaDigits (n : Nat) : List Nat := toLoweralphaGo n n

/-- `EnumaratedListNode._to_loweralpha`. -/
def toLoweralpha (n : Nat) : String :=
  String.mk ((toLoweralphaDigits n).map (fun d => alphaGlyphs.getD d 'a'))

/-- `EnumaratedListNode._to_upperalpha`. -/
def toUpperalpha (n : Nat) : String := strUpper (toLoweralpha n)

/-- The value table of the standard Roman-numeral encoding. -/
def romanTable : List (Nat × String) :=
  [(1000, "M"), (900, "CM"), (500, "D"), (400, "CD"), (100, "C"), (90, "XC"),
   (50, "L"), (40, "XL"), (10, "X"), (9, "IX"), (5, "V"), (4, "IV"), (1, "I")]

def repeatStr (s : String) : Nat → String
  | 0 => ""
  | k + 1 => s ++ repeatStr s k

def romanGo : List (Nat × String) → Nat → String
  | [], _ => ""
  | (v, g) :: rest, n => repeatStr g (n / v) ++ romanGo rest (n % v)

/-- Modelled from the spec: lower/upper-roman use "standard Roman-numeral
encoding".  The source delegates to the external collaborator
`docutils.utils.roman.toRoman`, which raises outside `0 < n < 4000`;
that library is not part of this repository. -/
def toRoman (n : Nat) : Option String :=
  if 0 < n ∧ n < 4000 then some (romanGo romanTable n) else none

/-- The enumeration styles for which `getattr(self, "_to_%s" % enumtype)`
finds a formatter method. -/
def enumTypeKnown (t : String) : Bool :=
  t == "arabic" || t == "loweralpha" || t == "upperalpha" ||
  t == "lowerroman" || t == "upperroman"

/-- The formatter chosen by `getattr(self, "_to_%s" % enumtype)`, applied
to a counter value. -/
def enumConvert (t : String) (i : Nat) : Option String :=
  if t == "arabic" then some (toString i)
  else if t == "loweralpha" then some (toLoweralpha i)
  else if t == "upperalpha" then some (toUpperalpha i)
  else if t == "lowerroman" then (toRoman i).map strLower
  else if t == "upperroman" then toRoman i
  else none

/-! ## Source tree nodes (docutils, consumed read-only) -/

/-- The docutils node attributes the translator reads.  A `none` field
models an absent dictionary key (reading it raises `KeyError`). -/
structure Attrs where
  uri : Option String := none
  alt : Option String := none
  refuri : Option String := none
  refname : Option String := none
  format : Option String := none
  classes : List String := []
  enumtype : Option String := none
  /-- the `"prefix"` attribute of enumerated lists -/
  pfx : Option String := none
  suffix : Option String := none
  start : Option Nat := none
  level : Option Nat := none
  line : Option Nat := none
  source : Option String := none
  msgType : Option String := none
  deriving Repr, DecidableEq

/-- A docutils source node: tag name, attributes, children, the text
returned by `astext()` (external collaborator behaviour, stored as data),
and the 1-based source line (`0` models Python `None`/falsy, as the code
only tests `rst_node.line` for truthiness).  The `id` field models object
identity. -/
inductive RstNode where
  | mk (id : Nat) (tagname : String) (attrs : Attrs) (children : List RstNode)
       (astext : String) (line : Nat)
  deriving Repr

def RstNode.nid : RstNode → Nat
  | .mk i _ _ _ _ _ => i

def RstNode.tagname : RstNode → String
  | .mk _ t _ _ _ _ => t

def RstNode.attrs : RstNode → Attrs
  | .mk _ _ a _ _ _ => a

def RstNode.children : RstNode → List RstNode
  | .mk _ _ _ c _ _ => c

def RstNode.astext : RstNode → String
  | .mk _ _ _ _ t _ => t

def RstNode.line : RstNode → Nat
  | .mk _ _ _ _ _ l => l

mutual
/-- `search_lines_recursive`: the flat list of descendants (the node
itself included, first) whose `line` attribute is truthy. -/
def searchLinesRecursive : RstNode → List RstNode
  | .mk i t a cs tx ln =>
    (if ln ≠ 0 then [RstNode.mk i t a cs tx ln] else []) ++ searchLinesList cs
def searchLinesList : List RstNode → List RstNode
  | [] => []
  | c :: cs => searchLinesRecursive c ++ searchLinesList cs
end

/-- `get_node_end_line`: start line plus rendered-text line count minus
one. -/
def getNodeEndLine (r : RstNode) : Nat :=
  r.line + (splitNl (convertToUnixEol r.astext)).length - 1

mutual
/-- The ids of all nodes of a source tree (document order). -/
def treeIds : RstNode → List Nat
  | .mk i _ _ cs _ _ => i :: treeIdsList cs
def treeIdsList : List RstNode → List Nat
  | [] => []
  | c :: cs => treeIds c ++ treeIdsList cs
end

/-- The document object handed to the translator.  `originalRst` models
the presence (and value) of the `_original_rst` attribute that
`parse_rst` patches onto it. -/
structure Document where
  originalRst : Option String
  deriving Repr, DecidableEq

/-! ## Gemtext nodes (the output model) -/

/-- The Gemtext node classes.  Every variant starts with: the `gemId`
(serial number modelling Python object identity of produced nodes), the
back-reference `ref` to the source node that produced it (`none` models
both Python `None` and a back-reference to another Gemtext node — see
`depart_list_item` — since the reference is only ever compared against
source nodes by identity, or traversed by `depart_table`, and both uses
treat these two cases alike: no match, `AttributeError`), and the
accumulated `raw` text.  `link` stores its text as `Option String`
because `LinkNode.__init__` stores `None` when both `text` and `uri` are
falsy. -/
inductive GNode where
  | paragraph (gemId : Nat) (ref : Option RstNode) (raw : String)
  | title (gemId : Nat) (ref : Option RstNode) (raw : String) (level : Int)
  | preformatted (gemId : Nat) (ref : Option RstNode) (raw : String) (alt : String)
  | blockQuote (gemId : Nat) (ref : Option RstNode) (raw : String) (children : List GNode)
  | bulletList (gemId : Nat) (ref : Option RstNode) (raw : String) (children : List GNode)
  | enumList (gemId : Nat) (ref : Option RstNode) (raw : String) (children : List GNode)
      (enumtype : String) (pfx : String) (suffix : String) (start : Nat)
  | listItem (gemId : Nat) (ref : Option RstNode) (raw : String)
  | sysMessage (gemId : Nat) (ref : Option RstNode) (raw : String) (children : List GNode)
      (level : Nat) (source : String) (line : Nat) (msgType : String)
  | link (gemId : Nat) (ref : Option RstNode) (rawOpt : Option String)
      (refname : Option String) (uri : Option String)
  | linkGroup (gemId : Nat) (ref : Option RstNode) (raw : String) (children : List GNode)
  | separator (gemId : Nat) (ref : Option RstNode) (raw : String)
  | rawNode (gemId : Nat) (ref : Option RstNode) (raw : String) (format : String)
  | figure (gemId : Nat) (ref : Option RstNode) (raw : String) (children : List GNode)
  | admonition (gemId : Nat) (ref : Option RstNode) (raw : String) (children : List GNode)
      (admType : Option String) (admTitle : Option String)

def GNode.gemId : GNode → Nat
  | .paragraph g _ _ | .title g _ _ _ | .preformatted g _ _ _ | .blockQuote g _ _ _
  | .bulletList g _ _ _ | .enumList g _ _ _ _ _ _ _ | .listItem g _ _
  | .sysMessage g _ _ _ _ _ _ _ | .link g _ _ _ _ | .linkGroup g _ _ _
  | .separator g _ _ | .rawNode g _ _ _ | .figure g _ _ _ | .admonition g _ _ _ _ _ => g

def GNode.ref : GNode → Option RstNode
  | .paragraph _ r _ | .title _ r _ _ | .preformatted _ r _ _ | .blockQuote _ r _ _
  | .bulletList _ r _ _ | .enumList _ r _ _ _ _ _ _ | .listItem _ r _
  | .sysMessage _ r _ _ _ _ _ _ | .link _ r _ _ _ | .linkGroup _ r _ _
  | .separator _ r _ | .rawNode _ r _ _ | .figure _ r _ _ | .admonition _ r _ _ _ _ => r

/-- The `rawtext` attribute as read by the translator (for `link` this is
the stored string-or-None; every other class stores a plain string). -/
def GNode.rawtext : GNode → Option String
  | .link _ _ ro _ _ => ro
  | .paragraph _ _ raw | .title _ _ raw _ | .preformatted _ _ raw _
  | .blockQuote _ _ raw _ | .bulletList _ _ raw _ | .enumList _ _ raw _ _ _ _ _
  | .listItem _ _ raw | .sysMessage _ _ raw _ _ _ _ _ | .linkGroup _ _ raw _
  | .separator _ _ raw | .rawNode _ _ raw _ | .figure _ _ raw _
  | .admonition _ _ raw _ _ _ => some raw

/-- `Node.append_text`: `self.rawtext += text`.  On a `link` whose stored
text is `None` this is Python `None + str`, a `TypeError`. -/
def GNode.appendText : GNode → String → Option GNode
  | .link g r ro rn u, t =>
    match ro with
    | none => none
    | some s => some (.link g r (some (s ++ t)) rn u)
  | .paragraph g r raw, t => some (.paragraph g r (raw ++ t))
  | .title g r raw lv, t => some (.title g r (raw ++ t) lv)
  | .preformatted g r raw alt, t => some (.preformatted g r (raw ++ t) alt)
  | .blockQuote g r raw cs, t => some (.blockQuote g r (raw ++ t) cs)
  | .bulletList g r raw cs, t => some (.bulletList g r (raw ++ t) cs)
  | .enumList g r raw cs et px sx st, t => some (.enumList g r (raw ++ t) cs et px sx st)
  | .listItem g r raw, t => some (.listItem g r (raw ++ t))
  | .sysMessage g r raw cs lv src ln ty, t => some (.sysMessage g r (raw ++ t) cs lv src ln ty)
  | .linkGroup g r raw cs, t => some (.linkGroup g r (raw ++ t) cs)
  | .separator g r raw, t => some (.separator g r (raw ++ t))
  | .rawNode g r raw f, t => some (.rawNode g r (raw ++ t) f)
  | .figure g r raw cs, t => some (.figure g r (raw ++ t) cs)
  | .admonition g r raw cs ty ti, t => some (.admonition g r (raw ++ t) cs ty ti)

/-- Reading the `.nodes` attribute (only the `NodeGroup` subclasses have
it; on other classes this is an `AttributeError`). -/
def GNode.childrenOf : GNode → Option (List GNode)
  | .blockQuote _ _ _ cs | .bulletList _ _ _ cs | .enumList _ _ _ cs _ _ _ _
  | .sysMessage _ _ _ cs _ _ _ _ | .linkGroup _ _ _ cs | .figure _ _ _ cs
  | .admonition _ _ _ cs _ _ => some cs
  | _ => none

/-- Assigning the `.nodes` attribute.  On a non-`NodeGroup` object Python
would silently create a fresh attribute that nothing ever reads; that is
modelled by returning the node unchanged. -/
def GNode.setChildrenDyn : GNode → List GNode → GNode
  | .blockQuote g r raw _, cs => .blockQuote g r raw cs
  | .bulletList g r raw _, cs => .bulletList g r raw cs
  | .enumList g r raw _ et px sx st, cs => .enumList g r raw cs et px sx st
  | .sysMessage g r raw _ lv src ln ty, cs => .sysMessage g r raw cs lv src ln ty
  | .linkGroup g r raw _, cs => .linkGroup g r raw cs
  | .figure g r raw _, cs => .figure g r raw cs
  | .admonition g r raw _ ty ti, cs => .admonition g r raw cs ty ti
  | n, _ => n

/-- Assigning the `.alt` attribute (`depart_table`); only
`PreformattedTextNode` has a read `alt` field, elsewhere the dynamic
attribute is never read. -/
def GNode.setAltDyn : GNode → String → GNode
  | .preformatted g r raw _, a => .preformatted g r raw a
  | n, _ => n

def GNode.isListItemNode : GNode → Bool
  | .listItem _ _ _ => true
  | _ => false

def GNode.isLinkNode : GNode → Bool
  | .link _ _ _ _ _ => true
  | _ => false

def GNode.isParagraphNode : GNode → Bool
  | .paragraph _ _ _ => true
  | _ => false

def GNode.isTitleNode : GNode → Bool
  | .title _ _ _ _ => true
  | _ => false

def GNode.isSysMessageNode : GNode → Bool
  | .sysMessage _ _ _ _ _ _ _ _ => true
  | _ => false

/-- `isinstance(node, NodeGroup)` (used by `flatten_node_tree`). -/
def GNode.isNodeGroup : GNode → Bool
  | .blockQuote _ _ _ _ | .bulletList _ _ _ _ | .enumList _ _ _ _ _ _ _ _
  | .sysMessage _ _ _ _ _ _ _ _ | .linkGroup _ _ _ _ | .figure _ _ _ _
  | .admonition _ _ _ _ _ _ => true
  | _ => false

/-- The `uri` of a `LinkNode` (only read behind `type(...) is LinkNode`
checks). -/
def GNode.linkUri : GNode → Option String
  | .link _ _ _ _ u => u
  | _ => none

/-! ## Rendering (`to_gemtext`) -/

/-- The heading marker of `TitleNode.to_gemtext`: `"#" * max(1, min(3, level))`. -/
def titleMarker (level : Int) : String :=
  String.mk (List.replicate (max 1 (min 3 level)).toNat '#')

/-- `AdmonitionNode.gen_title`. -/
def genTitle (admTitle : Option String) (admType : Option String) : String :=
  if truthyStr admTitle then pyShow admTitle
  else if admType == some "note" then "📝️ Note:"
  else if admType == some "hint" then "💡️ Hint"
  else if admType == some "tip" then "💡️ Tip"
  else if admType == some "important" then "‼️ Important"
  else if admType == some "attention" then "⚠️ Attention"
  else if admType == some "warning" then "⚠️ Warning"
  else if admType == some "caution" then "⚠️ Caution"
  else if admType == some "danger" then "⚠️ Danger"
  else if admType == some "error" then "⛔️ Error"
  else ""

/-- The item loop of `EnumaratedListNode.to_gemtext`, over the already
rendered children (each tagged with whether it `is ListItemNode`); the
counter advances on every child. -/
def enumItems (t pfx suffix : String) : Nat → List (Bool × String) → Option (List String)
  | _, [] => some []
  | i, (isItem, r) :: rest => do
    let hd ← if isItem
      then (enumConvert t i).map (fun c => "* " ++ pfx ++ c ++ suffix ++ " " ++ r)
      else some r
    let tl ← enumItems t pfx suffix (i + 1) rest
    some (hd :: tl)

mutual
/-- `Node.to_gemtext` of every Gemtext node class; `none` models a raised
exception (`LinkNode` with a falsy URI, an unknown enumeration type, a
Roman formatter out of range). -/
def GNode.toGemtext : GNode → Option String
  | .paragraph _ _ raw => some (removeNewlines raw)
  | .title _ _ raw lv => some (titleMarker lv ++ " " ++ raw)
  | .preformatted _ _ raw alt => some ("```" ++ alt ++ "\n" ++ raw ++ "\n```")
  | .blockQuote _ _ _ cs => do
    let ps ← GNode.renderChildren cs
    some (String.intercalate "\n>\n" (ps.map (fun p => "> " ++ p.2)))
  | .bulletList _ _ _ cs => do
    let ps ← GNode.renderChildren cs
    some (String.intercalate "\n" (ps.map (fun p => if p.1 then "* " ++ p.2 else p.2)))
  | .enumList _ _ _ cs et px sx st =>
    -- `convertor = getattr(self, "_to_%s" % self.enumtype)` runs before the loop
    if enumTypeKnown et then do
      let ps ← GNode.renderChildren cs
      let items ← enumItems et px sx st ps
      some (String.intercalate "\n" items)
    else none
  | .listItem _ _ raw => some (removeNewlines raw)
  | .sysMessage _ _ _ cs _ _ _ _ => do
    let ps ← GNode.renderChildren cs
    some (String.intercalate "\n" (ps.map (·.2)))
  | .link _ _ ro _ u =>
    match u with
    | none => none
    | some uri =>
      if uri = "" then none
      else if ro == some uri then some ("=> " ++ uri)
      else some ("=> " ++ uri ++ " " ++ pyShow ro)
  | .linkGroup _ _ _ cs => do
    let ps ← GNode.renderChildren cs
    some (String.intercalate "\n" (ps.map (·.2)))
  | .separator _ _ _ => some dashes80
  | .rawNode _ _ raw _ => some raw
  | .figure _ _ _ cs => do
    let ps ← GNode.renderChildren cs
    some (String.intercalate "\n" (ps.map (·.2)))
  | .admonition _ _ _ cs ty ti => do
    let ps ← GNode.renderChildren cs
    some (dashes80 ++ "\n" ++ genTitle ti ty ++ "\n" ++ dashes80 ++ "\n" ++
      String.intercalate "\n" (ps.map (·.2)) ++ "\n" ++ dashes80)
/-- Renders a child list in order, recording for each child whether it
`is ListItemNode` (the discrimination the two list renderers make). -/
def GNode.renderChildren : List GNode → Option (List (Bool × String))
  | [] => some []
  | n :: ns => do
    let r ← GNode.toGemtext n
    let rs ← GNode.renderChildren ns
    some ((n.isListItemNode, r) :: rs)
end

mutual
/-- `flatten_node_tree`: recursively inline the children of every
`NodeGroup`. -/
def flattenNodeTree : List GNode → List GNode
  | [] => []
  | n :: ns => flattenOne n ++ flattenNodeTree ns
def flattenOne : GNode → List GNode
  | .blockQuote _ _ _ cs | .bulletList _ _ _ cs | .enumList _ _ _ cs _ _ _ _
  | .sysMessage _ _ _ cs _ _ _ _ | .linkGroup _ _ _ cs | .figure _ _ _ cs
  | .admonition _ _ _ cs _ _ => flattenNodeTree cs
  | n => [n]
end

/-! ## The translator (`GemtextTranslator`) -/

/-- The mutable state of `GemtextTranslator`: the output buffer `nodes`,
the diagnostics list `messages`, the `_current_node` pointer (stored as
the `gemId` of the pointed-to object), the `_section_level` counter, the
`_skipped_node` marker (stored as the id of the source node), plus the
read-only `document` and the serial counter allocating `gemId`s. -/
structure TState where
  doc : Document
  nodes : List GNode
  messages : List GNode
  current : Option Nat
  sectionLevel : Int
  skipped : Option Nat
  nextGemId : Nat

/-- `GemtextTranslator.__init__`: requires the `_original_rst` attribute
on the document (else `ValueError`), and starts with empty buffer and
diagnostics. -/
def initTranslator (d : Document) : Option TState :=
  match d.originalRst with
  | none => none
  | some _ => some ⟨d, [], [], none, 0, none, 0⟩

/-- `self.nodes[i].rst_node is rst_node` — identity comparison of the
stored back-reference against a marker source node, by id. -/
def refMatches (n : GNode) (markerId : Nat) : Bool :=
  match n.ref with
  | some r => r.nid == markerId
  | none => false

/-- `GemtextTranslator._split_nodes`.  The Python loop leaves `i` at the
first matching index, or — when no node matches and the loop runs to
completion — at the last index, so a missing marker in a non-empty buffer
splits before the last element without error; an empty buffer leaves the
loop variable unbound (`NameError`, modelled by `none`). -/
def splitNodes (nodes : List GNode) (markerId : Nat) :
    Option (List GNode × List GNode) :=
  match nodes with
  | [] => none
  | _ =>
    let i := match nodes.findIdx? (fun n => refMatches n markerId) with
      | some j => j
      | none => nodes.length - 1
    some (nodes.take i, nodes.drop i)

mutual
/-- `visit_Text`'s mutation `self._current_node.append_text(...)`,
resolved through object identity: append to the node with the given
`gemId` wherever it lives in the buffer forest (a node no longer
reachable from the buffer is mutated invisibly in Python, hence a no-op
here). -/
def mutForest : List GNode → Nat → String → Option (List GNode)
  | [], _, _ => some []
  | n :: ns, gid, txt => do
    let n' ← mutNode n gid txt
    let ns' ← mutForest ns gid txt
    some (n' :: ns')
def mutNode : GNode → Nat → String → Option GNode
  | .blockQuote g r raw cs, gid, txt =>
    if g == gid then (GNode.blockQuote g r raw cs).appendText txt
    else do some (.blockQuote g r raw (← mutForest cs gid txt))
  | .bulletList g r raw cs, gid, txt =>
    if g == gid then (GNode.bulletList g r raw cs).appendText txt
    else do some (.bulletList g r raw (← mutForest cs gid txt))
  | .enumList g r raw cs et px sx st, gid, txt =>
    if g == gid then (GNode.enumList g r raw cs et px sx st).appendText txt
    else do some (.enumList g r raw (← mutForest cs gid txt) et px sx st)
  | .sysMessage g r raw cs lv src ln ty, gid, txt =>
    if g == gid then (GNode.sysMessage g r raw cs lv src ln ty).appendText txt
    else do some (.sysMessage g r raw (← mutForest cs gid txt) lv src ln ty)
  | .linkGroup g r raw cs, gid, txt =>
    if g == gid then (GNode.linkGroup g r raw cs).appendText txt
    else do some (.linkGroup g r raw (← mutForest cs gid txt))
  | .figure g r raw cs, gid, txt =>
    if g == gid then (GNode.figure g r raw cs).appendText txt
    else do some (.figure g r raw (← mutForest cs gid txt))
  | .admonition g r raw cs ty ti, gid, txt =>
    if g == gid then (GNode.admonition g r raw cs ty ti).appendText txt
    else do some (.admonition g r raw (← mutForest cs gid txt) ty ti)
  | .paragraph g r raw, gid, txt =>
    if g == gid then (GNode.paragraph g r raw).appendText txt
    else some (.paragraph g r raw)
  | .title g r raw lv, gid, txt =>
    if g == gid then (GNode.title g r raw lv).appendText txt
    else some (.title g r raw lv)
  | .preformatted g r raw alt, gid, txt =>
    if g == gid then (GNode.preformatted g r raw alt).appendText txt
    else some (.preformatted g r raw alt)
  | .listItem g r raw, gid, txt =>
    if g == gid then (GNode.listItem g r raw).appendText txt
    else some (.listItem g r raw)
  | .link g r ro rn u, gid, txt =>
    if g == gid then (GNode.link g r ro rn u).appendText txt
    else some (.link g r ro rn u)
  | .separator g r raw, gid, txt =>
    if g == gid then (GNode.separator g r raw).appendText txt
    else some (.separator g r raw)
  | .rawNode g r raw f, gid, txt =>
    if g == gid then (GNode.rawNode g r raw f).appendText txt
    else some (.rawNode g r raw f)
end

/-- Append a freshly constructed Gemtext node, allocating its `gemId`. -/
def appendFresh (s : TState) (f : Nat → GNode) : TState :=
  { s with nodes := s.nodes ++ [f s.nextGemId], nextGemId := s.nextGemId + 1 }

/-- Append a fresh node and make it the `_current_node`. -/
def appendFreshCurrent (s : TState) (f : Nat → GNode) : TState :=
  { s with nodes := s.nodes ++ [f s.nextGemId], nextGemId := s.nextGemId + 1,
           current := some s.nextGemId }

/-! ### visit handlers -/

/-- `visit_admonition` (also used by the typed aliases). -/
def visitAdmonition (t : RstNode) (ty : Option String) (s : TState) : TState :=
  { appendFresh s (fun g => .admonition g (some t) "" [] ty none) with current := none }

def visitBlockQuote (t : RstNode) (s : TState) : TState :=
  { appendFresh s (fun g => .blockQuote g (some t) "" []) with current := none }

def visitBulletList (t : RstNode) (s : TState) : TState :=
  { appendFresh s (fun g => .bulletList g (some t) "" []) with current := none }

def visitEnumeratedList (t : RstNode) (s : TState) : Option TState := do
  let et ← t.attrs.enumtype
  let px ← t.attrs.pfx
  let sx ← t.attrs.suffix
  let st := match t.attrs.start with
    | some v => v
    | none => 1
  some { appendFresh s (fun g => .enumList g (some t) "" [] et px sx st) with
         current := none }

def visitFigure (t : RstNode) (s : TState) : TState :=
  { appendFresh s (fun g => .figure g (some t) "" []) with current := none }

/-- `visit_image`: emits a Link; its text is the `alt` attribute when
present, and `LinkNode.__init__` falls back to the URI when the text is
falsy. -/
def visitImage (t : RstNode) (s : TState) : Option TState := do
  let u ← t.attrs.uri
  let txt := t.attrs.alt
  let ro : Option String := if truthyStr txt then txt else some u
  some (appendFresh s (fun g => .link g (some t) ro none (some u)))

def visitListItem (t : RstNode) (s : TState) : TState :=
  { appendFresh s (fun g => .listItem g (some t) "") with current := none }

/-- The class-list scan of `visit_literal_block`: the first class other
than `"code"`, or `""`. -/
def firstNonCodeClass : List String → String
  | [] => ""
  | c :: cs => if c ≠ "code" then c else firstNonCodeClass cs

def visitLiteralBlock (t : RstNode) (s : TState) : TState :=
  appendFreshCurrent s (fun g => .preformatted g (some t) "" (firstNonCodeClass t.attrs.classes))

def visitParagraph (t : RstNode) (s : TState) : TState :=
  appendFreshCurrent s (fun g => .paragraph g (some t) "")

def visitRaw (t : RstNode) (s : TState) : Option TState := do
  let f ← t.attrs.format
  some (appendFreshCurrent s (fun g => .rawNode g (some t) "" f))

/-- The child scan of `visit_reference`: image children are skipped, text
children contribute their `astext`, anything else is a `ValueError`. -/
def referenceText : List RstNode → Option String
  | [] => some ""
  | c :: cs =>
    if c.tagname = "image" then referenceText cs
    else if c.tagname ≠ "#text" then none
    else do
      let rest ← referenceText cs
      some (c.astext ++ rest)

def visitReference (t : RstNode) (s : TState) : Option TState := do
  let txt0 ← referenceText t.children
  let txt := removeNewlines txt0
  let uriAttr := t.attrs.refuri
  let ro : Option String := if txt ≠ "" then some txt else uriAttr
  some (appendFresh s (fun g => .link g (some t) ro t.attrs.refname uriAttr))

def visitSystemMessage (t : RstNode) (s : TState) : Option TState := do
  let lv ← t.attrs.level
  let ln ← t.attrs.line
  let src ← t.attrs.source
  let ty ← t.attrs.msgType
  some { appendFresh s (fun g => .sysMessage g (some t) "" [] lv src ln ty) with
         current := none }

def visitTable (t : RstNode) (s : TState) : TState :=
  { appendFresh s (fun g => .preformatted g (some t) "" "") with current := none }

def visitText (t : RstNode) (s : TState) : Option TState :=
  match s.current with
  | none => none  -- `AttributeError`: `None.append_text`
  | some gid => do
    let ns ← mutForest s.nodes gid t.astext
    some { s with nodes := ns }

def visitTitle (t : RstNode) (s : TState) : TState :=
  appendFreshCurrent s (fun g => .title g (some t) "" s.sectionLevel)

def visitTransition (t : RstNode) (s : TState) : TState :=
  appendFresh s (fun g => .separator g (some t) "")

/-! ### depart handlers -/

/-- `depart_admonition` (also used by the typed aliases): pop the
placeholder, read its `.type` (an `AttributeError` on any other class),
for the untyped case pull a leading `TitleNode` out as the title
override, and re-home the rest as the admonition's children. -/
def departAdmonition (t : RstNode) (s : TState) : Option TState := do
  let (before, suffix) ← splitNodes s.nodes t.nid
  match suffix with
  | [] => none
  | ph :: rest =>
    match ph with
    | .admonition g r raw _ ty ti =>
      match ty, rest with
      | none, [] => none  -- `nodes[0]`: IndexError
      | none, x :: xs =>
        match x with
        | .title _ _ traw _ =>
          some { s with nodes := before ++ [.admonition g r raw xs none (some traw)] }
        | _ => some { s with nodes := before ++ [.admonition g r raw rest none ti] }
      | some ty', _ =>
        some { s with nodes := before ++ [.admonition g r raw rest (some ty') ti] }
    | _ => none  -- reading `.type`: AttributeError

/-- The link-extraction loop shared by `depart_block_quote` and
`depart_bullet_list`: returns (collected links, remaining children in
order). -/
def partitionLinks : List GNode → List GNode × List GNode
  | [] => ([], [])
  | n :: ns =>
    let (ls, bs) := partitionLinks ns
    match n with
    | .link _ _ _ _ _ => (n :: ls, bs)
    | .linkGroup _ _ _ cs => (cs ++ ls, bs)
    | _ => (ls, n :: bs)

/-- After the link extraction: append the group if it kept children, then
a lone link or a fresh `LinkGroupNode(None)`. -/
def appendGroupAndLinks (s : TState) (before : List GNode) (ph : GNode)
    (body links : List GNode) : TState :=
  let ph' := ph.setChildrenDyn body
  let base := if !body.isEmpty then before ++ [ph'] else before
  match links with
  | [] => { s with nodes := base }
  | [l] => { s with nodes := base ++ [l] }
  | ls => appendFresh { s with nodes := base } (fun g => .linkGroup g none "" ls)

def departBlockQuote (t : RstNode) (s : TState) : Option TState := do
  let (before, suffix) ← splitNodes s.nodes t.nid
  match suffix with
  | [] => none
  | ph :: rest => do
    let cs0 ← ph.childrenOf  -- `.nodes` read: AttributeError off a NodeGroup
    let (links, body) := partitionLinks rest
    some (appendGroupAndLinks s before ph (cs0 ++ body) links)

/-- `depart_bullet_list` — same restructuring as `depart_block_quote`
(the source duplicates the logic); `depart_enumerated_list` delegates
here. -/
def departBulletList (t : RstNode) (s : TState) : Option TState := do
  let (before, suffix) ← splitNodes s.nodes t.nid
  match suffix with
  | [] => none
  | ph :: rest => do
    let cs0 ← ph.childrenOf
    let (links, body) := partitionLinks rest
    some (appendGroupAndLinks s before ph (cs0 ++ body) links)

/-- The folding loop of `depart_figure` over the collected children,
carried out against the figure's growing child list. -/
def figureFold (acc : List GNode) : List GNode → List GNode
  | [] => acc
  | n :: ns =>
    match n with
    | .link _ _ ro _ u =>
      match acc.getLast? with
      | some prev =>
        match prev with
        | .link _ _ pro _ pu =>
          let acc' := acc.dropLast
          if pu == u then
            if truthyStr pro && !truthyStr ro then figureFold (acc' ++ [prev]) ns
            else figureFold (acc' ++ [n]) ns
          else figureFold (acc' ++ [n, prev]) ns  -- swap link / image
        | _ => figureFold (acc ++ [n]) ns
      | none => figureFold (acc ++ [n]) ns
    | .paragraph _ _ raw =>
      if acc.any (fun f => f.rawtext == some raw) then figureFold acc ns
      else figureFold (acc ++ [n]) ns
    | _ => figureFold (acc ++ [n]) ns

/-- The final caption pass of `depart_figure`: when the first child is a
Link, the last a Paragraph, and the link's text still equals its own URI,
the trailing paragraph becomes the link's display text. -/
def figureCaptionPass (cs : List GNode) : List GNode :=
  match cs with
  | (.link g r ro rn u) :: _ =>
    match cs.getLast? with
    | some (.paragraph _ _ praw) =>
      if ro == u then
        match cs.dropLast with
        | [] => cs
        | _ :: tl => (.link g r (some praw) rn u) :: tl
      else cs
    | _ => cs
  | _ => cs

def departFigure (t : RstNode) (s : TState) : Option TState := do
  let (before, suffix) ← splitNodes s.nodes t.nid
  match suffix with
  | [] => none
  | ph :: rest => do
    let cs0 ← ph.childrenOf
    let cs := figureFold cs0 rest
    match cs with
    | [] => none  -- `figure_node.nodes[0]`: IndexError
    | _ => some { s with nodes := before ++ [ph.setChildrenDyn (figureCaptionPass cs)] }

/-- The loop of `depart_list_item`: nested lists flush the current item
and start a fresh one (whose `rst_node` back-reference is a Gemtext node,
hence `none` here), links pass through, anything else renders into the
item text. -/
def departListItemGo (item : GNode) (rest : List GNode) (s : TState) : Option TState :=
  match rest with
  | [] =>
    if truthyStr item.rawtext then some { s with nodes := s.nodes ++ [item] }
    else some s
  | n :: ns =>
    match n with
    | .bulletList _ _ _ _ | .enumList _ _ _ _ _ _ _ _ =>
      departListItemGo (.listItem s.nextGemId none "") ns
        { s with nodes := s.nodes ++ [item, n], nextGemId := s.nextGemId + 1 }
    | .link _ _ _ _ _ | .linkGroup _ _ _ _ =>
      departListItemGo item ns { s with nodes := s.nodes ++ [n] }
    | _ => do
      let item1 ← if truthyStr item.rawtext then item.appendText " " else some item
      let r ← n.toGemtext
      let item2 ← item1.appendText r
      departListItemGo item2 ns s

def departListItem (t : RstNode) (s : TState) : Option TState := do
  let (before, suffix) ← splitNodes s.nodes t.nid
  match suffix with
  | [] => none
  | ph :: rest => departListItemGo ph rest { s with nodes := before }

/-- `depart_paragraph`: a paragraph whose single collected child carries
identical raw text is replaced by that child; otherwise the paragraph is
kept only when its rendering has non-blank content, and any collected
children are re-homed after it in a fresh `LinkGroupNode`. -/
def departParagraph (t : RstNode) (s : TState) : Option TState := do
  let (before, suffix) ← splitNodes s.nodes t.nid
  match suffix with
  | [] => none
  | ph :: rest =>
    let isSubst := match rest with
      | [x] => x.rawtext == ph.rawtext
      | _ => false
    if isSubst then some { s with nodes := before ++ rest }
    else do
      let r ← ph.toGemtext
      let s1 := { s with nodes := before ++ (if pyStrip r ≠ "" then [ph] else []) }
      match rest with
      | [] => some s1
      | _ => some (appendFresh s1 (fun g => .linkGroup g (some t) "" rest))

/-- `depart_raw`: reads `.format` off the last buffer node (an
`AttributeError` unless it is a `RawNode`; an `IndexError` on an empty
buffer) and pops it unless the format is a Gemtext spelling. -/
def departRaw (_t : RstNode) (s : TState) : Option TState :=
  match s.nodes.getLast? with
  | none => none
  | some n =>
    match n with
    | .rawNode _ _ _ f =>
      if f == "gemtext" || f == "gmi" then some s
      else some { s with nodes := s.nodes.dropLast }
    | _ => none

/-- `depart_system_message`: the placeholder and its collected children
go to the diagnostics list, never back to the output buffer. -/
def departSystemMessage (t : RstNode) (s : TState) : Option TState := do
  let (before, suffix) ← splitNodes s.nodes t.nid
  match suffix with
  | [] => none
  | ph :: rest =>
    some { s with nodes := before, messages := s.messages ++ [ph.setChildrenDyn rest] }

/-- The if/elif line-range accumulator of `depart_table` (`line_min`
starts at `math.inf`, modelled by `none`; `line_max` at `0`).  NOTE the
`elif`: an iteration that lowers `line_min` never updates `line_max`. -/
def tableRangeStep (acc : Option Nat × Nat) (r : RstNode) : Option Nat × Nat :=
  let st := r.line
  let en := getNodeEndLine r
  match acc with
  | (none, mx) => (some st, mx)
  | (some mn, mx) =>
    if st < mn then (some st, mx)
    else if en > mx then (some mn, en)
    else (some mn, mx)

/-- The scan of `depart_table` over the flattened collected nodes: a
`TitleNode` supplies the label, every other node contributes the
line-bearing descendants of its source back-reference (a missing
back-reference is an `AttributeError` on `rst_node.line`). -/
def tableScan : List GNode → String → (Option Nat × Nat) → Option (String × (Option Nat × Nat))
  | [], title, acc => some (title, acc)
  | n :: rest, title, acc =>
    match n with
    | .title _ _ traw _ => tableScan rest traw acc
    | _ =>
      match n.ref with
      | none => none
      | some r => tableScan rest title ((searchLinesRecursive r).foldl tableRangeStep acc)

/-- The count of leading whitespace of the first sliced line,
`re.match(r"^(\s*).*$", line).group(1)`. -/
def countLeadingSpace (s : String) : Nat :=
  (s.toList.takeWhile pyIsSpace).length

def departTable (t : RstNode) (s : TState) : Option TState := do
  let (before, suffix) ← splitNodes s.nodes t.nid
  match suffix with
  | [] => none
  | ph :: rest => do
    let (title, mnOpt, mx) ← tableScan (flattenNodeTree rest) "" (none, 0)
    match mnOpt with
    | none => none  -- `line_min` still `math.inf`: slicing with it is a TypeError
    | some mn => do
      let orig ← s.doc.originalRst
      let lineMin : Int := (mn : Int) - 1
      let lineMax : Int := (mx : Int) + 1
      let tableLines := pySlice (splitNl orig) (lineMin - 1) lineMax
      match tableLines with
      | [] => none  -- `table_lines[0]`: IndexError
      | l0 :: _ =>
        let indent := countLeadingSpace l0
        let body := String.intercalate "\n" (tableLines.map (fun l => l.drop indent))
        let ph1 ← ph.appendText body
        let ph2 := if title ≠ "" then ph1.setAltDyn title else ph1
        some { s with nodes := before ++ [ph2] }

/-! ### dispatch and traversal -/

/-- `GemtextTranslator._NOP_NODES`. -/
def NOP_NODES : List String := ["emphasis", "literal", "strong", "target"]

/-- `GemtextTranslator._SKIPPED_NODES`. -/
def SKIPPED_NODES : List String :=
  ["field_list", "comment", "substitution_definition", "topic"]

/-- The `visit_*` method selected by `GenericNodeVisitor` dispatch (the
method name is the node's class name: `"#text"` nodes are of class
`Text`; every other handled class is named after its tag).  Unhandled
kinds fall to the overridden `default_visit`, a no-op. -/
def visitByTag (t : RstNode) (s : TState) : Option TState :=
  if t.tagname = "admonition" then some (visitAdmonition t none s)
  else if t.tagname = "attention" then some (visitAdmonition t (some "attention") s)
  else if t.tagname = "block_quote" then some (visitBlockQuote t s)
  else if t.tagname = "bullet_list" then some (visitBulletList t s)
  else if t.tagname = "caption" then some (visitParagraph t s)
  else if t.tagname = "caution" then some (visitAdmonition t (some "caution") s)
  else if t.tagname = "danger" then some (visitAdmonition t (some "danger") s)
  else if t.tagname = "enumerated_list" then visitEnumeratedList t s
  else if t.tagname = "error" then some (visitAdmonition t (some "error") s)
  else if t.tagname = "figure" then some (visitFigure t s)
  else if t.tagname = "hint" then some (visitAdmonition t (some "hint") s)
  else if t.tagname = "image" then visitImage t s
  else if t.tagname = "important" then some (visitAdmonition t (some "important") s)
  else if t.tagname = "list_item" then some (visitListItem t s)
  else if t.tagname = "literal_block" then some (visitLiteralBlock t s)
  else if t.tagname = "note" then some (visitAdmonition t (some "note") s)
  else if t.tagname = "paragraph" then some (visitParagraph t s)
  else if t.tagname = "raw" then visitRaw t s
  else if t.tagname = "reference" then visitReference t s
  else if t.tagname = "section" then some { s with sectionLevel := s.sectionLevel + 1 }
  else if t.tagname = "system_message" then visitSystemMessage t s
  else if t.tagname = "table" then some (visitTable t s)
  else if t.tagname = "#text" then visitText t s
  else if t.tagname = "tip" then some (visitAdmonition t (some "tip") s)
  else if t.tagname = "title" then some (visitTitle t s)
  else if t.tagname = "transition" then some (visitTransition t s)
  else if t.tagname = "warning" then some (visitAdmonition t (some "warning") s)
  else some s

/-- The `depart_*` method selected by dispatch (handlers that are `pass`
in the source are identity here). -/
def departByTag (t : RstNode) (s : TState) : Option TState :=
  if t.tagname = "admonition" then departAdmonition t s
  else if t.tagname = "attention" then departAdmonition t s
  else if t.tagname = "block_quote" then departBlockQuote t s
  else if t.tagname = "bullet_list" then departBulletList t s
  else if t.tagname = "caption" then departParagraph t s
  else if t.tagname = "caution" then departAdmonition t s
  else if t.tagname = "danger" then departAdmonition t s
  else if t.tagname = "enumerated_list" then departBulletList t s
  else if t.tagname = "error" then departAdmonition t s
  else if t.tagname = "figure" then departFigure t s
  else if t.tagname = "hint" then departAdmonition t s
  else if t.tagname = "important" then departAdmonition t s
  else if t.tagname = "list_item" then departListItem t s
  else if t.tagname = "note" then departAdmonition t s
  else if t.tagname = "paragraph" then departParagraph t s
  else if t.tagname = "raw" then departRaw t s
  else if t.tagname = "section" then some { s with sectionLevel := s.sectionLevel - 1 }
  else if t.tagname = "system_message" then departSystemMessage t s
  else if t.tagname = "table" then departTable t s
  else if t.tagname = "tip" then departAdmonition t s
  else if t.tagname = "warning" then departAdmonition t s
  else some s

/-- `GemtextTranslator.dispatch_visit`: an active skip swallows the
event; a skip-listed tag starts skipping; a pass-through tag is a no-op;
otherwise the per-kind handler runs. -/
def dispatchVisit (t : RstNode) (s : TState) : Option TState :=
  if s.skipped.isSome then some s
  else if SKIPPED_NODES.contains t.tagname then some { s with skipped := some t.nid }
  else if NOP_NODES.contains t.tagname then some s
  else visitByTag t s

/-- `GemtextTranslator.dispatch_departure`: while skipping, only the
skip-marker node's own departure clears the skip; pass-through tags are
no-ops; otherwise the per-kind handler runs. -/
def dispatchDeparture (t : RstNode) (s : TState) : Option TState :=
  match s.skipped with
  | some k => some (if k == t.nid then { s with skipped := none } else s)
  | none =>
    if NOP_NODES.contains t.tagname then some s
    else departByTag t s

mutual
/-- `document.walkabout(visitor)`: depth-first, enter event, children in
order, leave event. -/
def walkNode : RstNode → TState → Option TState
  | .mk i tag attrs cs tx ln, s => do
    let s1 ← dispatchVisit (.mk i tag attrs cs tx ln) s
    let s2 ← walkList cs s1
    dispatchDeparture (.mk i tag attrs cs tx ln) s2
def walkList : List RstNode → TState → Option TState
  | [], s => some s
  | c :: cs, s => do
    let s1 ← walkNode c s
    walkList cs s1
end

/-- The traversal part of `GemtextWriter.translate`: construct the
translator (which validates the document), then walk the tree.  The
docutils reference transforms that `translate` applies first mutate the
source tree before any walking; the tree argument here is the
already-transformed tree. -/
def runTranslator (d : Document) (t : RstNode) : Option TState := do
  let s ← initTranslator d
  walkNode t s

/-- The serialization part of `GemtextWriter.translate`:
`"\n\n".join(node.to_gemtext() for ...) + "\n"`. -/
def serializeNodes (ns : List GNode) : Option String := do
  let rs ← ns.mapM GNode.toGemtext
  some (String.intercalate "\n\n" rs ++ "\n")

/-- `GemtextWriter.translate` followed by reading the output text. -/
def translateDocument (d : Document) (t : RstNode) : Option String := do
  let s ← runTranslator d t
  serializeNodes s.nodes

/-! ## Properties of the counter encoding (claim C6 infrastructure) -/

theorem toLoweralphaGo_zero (f : Nat) : toLoweralphaGo f 0 = [] := by
  cases f <;> rfl

theorem toLoweralphaGo_fuel (f₁ f₂ n : Nat) (h₁ : n ≤ f₁) (h₂ : n ≤ f₂) :
    toLoweralphaGo f₁ n = toLoweralphaGo f₂ n := by
  induction f₁ generalizing f₂ n with
  | zero =>
    have : n = 0 := Nat.le_zero.mp h₁
    subst this
    rw [toLoweralphaGo_zero, toLoweralphaGo_zero]
  | succ f ih =>
    cases n with
    | zero => rw [toLoweralphaGo_zero, toLoweralphaGo_zero]
    | succ m =>
      cases f₂ with
      | zero => omega
      | succ g =>
        show toLoweralphaGo f (m / 26) ++ [m % 26] = toLoweralphaGo g (m / 26) ++ [m % 26]
        have hm : m / 26 ≤ m := Nat.div_le_self m 26
        rw [ih g (m / 26) (by omega) (by omega)]

/-- The defining recurrence of the `_to_loweralpha` loop: one iteration
decrements, records `(number - 1) % 26`, and continues with
`(number - 1) // 26`. -/
theorem toLoweralphaDigits_succ (n : Nat) :
    toLoweralphaDigits (n + 1) = toLoweralphaDigits (n / 26) ++ [n % 26] := by
  show toLoweralphaGo (n + 1) (n + 1) = toLoweralphaDigits (n / 26) ++ [n % 26]
  show toLoweralphaGo n (n / 26) ++ [n % 26] = toLoweralphaDigits (n / 26) ++ [n % 26]
  rw [toLoweralphaGo_fuel n (n / 26) (n / 26) (Nat.le_trans (Nat.div_le_self n 26) (Nat.le_refl n)) (Nat.le_refl _)]
  rfl

theorem toLoweralphaDigits_lt (n : Nat) : ∀ d ∈ toLoweralphaDigits n, d < 26 := by
  induction n using Nat.strong_induction_on with
  | _ n ih =>
    cases n with
    | zero => intro d hd; simp [toLoweralphaDigits, toLoweralphaGo] at hd
    | succ m =>
      intro d hd
      rw [toLoweralphaDigits_succ] at hd
      rcases List.mem_append.mp hd with h | h
      · exact ih (m / 26) (by omega) d h
      · simp at h; omega

/-- The inverse the claim describes: bijective base-26 with `a` = 1,
digit-list level. -/
def fromAlphaDigits (ds : List Nat) : Nat :=
  ds.foldl (fun a d => a * 26 + d + 1) 0

/-- The inverse the claim describes, applied to the rendered string. -/
def fromLoweralpha (s : String) : Nat :=
  s.toList.foldl (fun a c => a * 26 + (c.toNat - 97) + 1) 0

theorem fromAlphaDigits_concat (ds : List Nat) (d : Nat) :
    fromAlphaDigits (ds ++ [d]) = fromAlphaDigits ds * 26 + d + 1 := by
  simp [fromAlphaDigits]

theorem fromAlphaDigits_toDigits (n : Nat) :
    fromAlphaDigits (toLoweralphaDigits n) = n := by
  induction n using Nat.strong_induction_on with
  | _ n ih =>
    cases n with
    | zero => rfl
    | succ m =>
      rw [toLoweralphaDigits_succ, fromAlphaDigits_concat, ih (m / 26) (by omega)]
      omega

theorem alphaGlyph_decode (d : Nat) (hd : d < 26) :
    (alphaGlyphs.getD d 'a').toNat - 97 = d := by
  interval_cases d <;> rfl

theorem alpha_foldl_decode (ds : List Nat) : ∀ (a : Nat), (∀ d ∈ ds, d < 26) →
    ds.foldl (fun a d => a * 26 + ((alphaGlyphs.getD d 'a').toNat - 97) + 1) a =
    ds.foldl (fun a d => a * 26 + d + 1) a := by
  induction ds with
  | nil => intro a _; rfl
  | cons d ds ih =>
    intro a h
    have hd : d < 26 := h d (List.mem_cons_self d ds)
    simp only [List.foldl_cons, alphaGlyph_decode d hd]
    exact ih _ (fun x hx => h x (List.mem_cons_of_mem d hx))

theorem fromLoweralpha_decode_digits (ds : List Nat) (h : ∀ d ∈ ds, d < 26) :
    fromLoweralpha (String.mk (ds.map (fun d => alphaGlyphs.getD d 'a'))) =
      fromAlphaDigits ds := by
  show (ds.map (fun d => alphaGlyphs.getD d 'a')).foldl (fun a c => a * 26 + (c.toNat - 97) + 1) 0 =
    ds.foldl (fun a d => a * 26 + d + 1) 0
  rw [List.foldl_map]
  exact alpha_foldl_decode ds 0 h

/-- The full round-trip: the claim-described inverse recovers every
number from its `_to_loweralpha` rendering. -/
theorem fromLoweralpha_toLoweralpha (n : Nat) :
    fromLoweralpha (toLoweralpha n) = n := by
  rw [toLoweralpha, fromLoweralpha_decode_digits _ (toLoweralphaDigits_lt n),
    fromAlphaDigits_toDigits]

/-! ## Claim theorems -/

/-- C6: for every positive integer n up to 10000, the bijective base-26
inverse (`a` = 1) recovers n from `_to_loweralpha`'s encoding; the
encoding is injective on positive integers; 1 ↦ "a", 26 ↦ "z",
27 ↦ "aa". -/
theorem c6_alpha_roundtrip :
    (∀ n : Nat, 1 ≤ n → n ≤ 10000 → fromLoweralpha (toLoweralpha n) = n)
  ∧ (∀ m n : Nat, 1 ≤ m → 1 ≤ n → toLoweralpha m = toLoweralpha n → m = n)
  ∧ toLoweralpha 1 = "a" ∧ toLoweralpha 26 = "z" ∧ toLoweralpha 27 = "aa" := by
  refine ⟨fun n _ _ => fromLoweralpha_toLoweralpha n, fun m n _ _ h => ?_, rfl, rfl, rfl⟩
  have hm := fromLoweralpha_toLoweralpha m
  have hn := fromLoweralpha_toLoweralpha n
  rw [h] at hm
  omega

theorem c6_alpha_roundtrip_witness :
    fromLoweralpha (toLoweralpha 703) = 703 ∧ (703 : Nat) = 703 :=
  ⟨c6_alpha_roundtrip.1 703 (by omega) (by omega),
   c6_alpha_roundtrip.2.1 703 703 (by omega) (by omega) rfl⟩

/-- C5: the rendered heading marker always has between 1 and 3 `#`
characters, its length is monotone in the requested level, and is
constant 3 from level 3 on; `TitleNode.to_gemtext` uses exactly this
marker. -/
theorem c5_heading_clamp :
    ∀ (lv lv' : Int) (g : Nat) (r : Option RstNode) (raw : String),
      GNode.toGemtext (.title g r raw lv) = some (titleMarker lv ++ " " ++ raw)
    ∧ (1 ≤ (titleMarker lv).length ∧ (titleMarker lv).length ≤ 3)
    ∧ (lv ≤ lv' → (titleMarker lv).length ≤ (titleMarker lv').length)
    ∧ (3 ≤ lv → (titleMarker lv).length = 3) := by
  have hlen : ∀ lv : Int, (titleMarker lv).length = (max 1 (min 3 lv)).toNat := by
    intro lv
    simp [titleMarker, String.length]
  refine fun lv lv' g r raw => ⟨rfl, ?_, ?_, ?_⟩
  · rw [hlen]; omega
  · intro h; rw [hlen, hlen]; omega
  · intro h; rw [hlen]; omega

theorem c5_heading_clamp_witness :
    (titleMarker 2).length ≤ (titleMarker 5).length ∧ (titleMarker 5).length = 3 :=
  ⟨(c5_heading_clamp 2 5 0 none "").2.2.1 (by omega),
   (c5_heading_clamp 5 5 0 none "").2.2.2 (by omega)⟩

/-- C4: a Link whose text equals its URI renders as `"=> " + URI`; one
with different text renders as `"=> " + URI + " " + text`; one with no
resolved URI raises instead of rendering. -/
theorem c4_link_rendering :
    ∀ (g : Nat) (r : Option RstNode) (rn : Option String) (u t : String),
      (u ≠ "" → GNode.toGemtext (.link g r (some u) rn (some u)) = some ("=> " ++ u))
    ∧ (u ≠ "" → t ≠ u → GNode.toGemtext (.link g r (some t) rn (some u)) =
        some ("=> " ++ u ++ " " ++ t))
    ∧ GNode.toGemtext (.link g r (some t) rn none) = none := by
  refine fun g r rn u t => ⟨fun hu => ?_, fun hu ht => ?_, rfl⟩
  · simp [GNode.toGemtext, hu]
  · simp [GNode.toGemtext, hu, ht, pyShow]

theorem c4_link_rendering_witness :
    GNode.toGemtext (.link 0 none (some "gemini://x/") none (some "gemini://x/")) =
      some "=> gemini://x/"
  ∧ GNode.toGemtext (.link 0 none (some "home") none (some "gemini://x/")) =
      some "=> gemini://x/ home" :=
  ⟨(c4_link_rendering 0 none none "gemini://x/" "t").1 (by decide),
   (c4_link_rendering 0 none none "gemini://x/" "home").2.1 (by decide) (by decide)⟩

/-- The BlockQuote rendering claim C3 describes: each child's rendering
prefixed with `"> "`, joined with a separator line consisting only of
`"> "` (that is, the join string `"\n> \n"`). -/
def spec_blockQuoteRender (rs : List String) : String :=
  String.intercalate "\n> \n" (rs.map (fun r => "> " ++ r))

/-- C3 fails on the code: the separator line the code emits is `">"`
(no trailing space) — `"\n>\n".join(...)` — not `"> "`. -/
theorem c3_counterexample :
    GNode.toGemtext (.blockQuote 0 none "" [.paragraph 1 none "a", .paragraph 2 none "b"])
      = some "> a\n>\n> b"
  ∧ spec_blockQuoteRender ["a", "b"] = "> a\n> \n> b"
  ∧ ("> a\n>\n> b" : String) ≠ "> a\n> \n> b" := ⟨rfl, rfl, by decide⟩

/-- C3 amended: the children's renderings are each prefixed with `"> "`
and joined pairwise by a separator line consisting only of `">"`. -/
theorem c3_blockquote_amended :
    ∀ (g : Nat) (r : Option RstNode) (raw : String) (ns : List GNode)
      (ps : List (Bool × String)),
      ns ≠ [] → GNode.renderChildren ns = some ps →
      GNode.toGemtext (.blockQuote g r raw ns) =
        some (String.intercalate "\n>\n" (ps.map (fun p => "> " ++ p.2))) := by
  intro g r raw ns ps _ hps
  simp [GNode.toGemtext, hps]

theorem c3_blockquote_amended_witness :
    GNode.toGemtext (.blockQuote 0 none "" [.paragraph 1 none "a", .paragraph 2 none "b"]) =
      some (String.intercalate "\n>\n" ([(false, "a"), (false, "b")].map (fun p => "> " ++ p.2))) :=
  c3_blockquote_amended 0 none "" [.paragraph 1 none "a", .paragraph 2 none "b"]
    [(false, "a"), (false, "b")] (by simp) rfl

/-- C9: the translator handles the `error` source kind as a typed
admonition (beyond the eight types the spec lists), and an `error`-typed
admonition without a title override titles itself `"⛔️ Error"`. -/
theorem c9_error_admonition :
    (∀ (t : RstNode) (s : TState), s.skipped = none → t.tagname = "error" →
      dispatchVisit t s = some { s with
        nodes := s.nodes ++ [.admonition s.nextGemId (some t) "" [] (some "error") none],
        current := none,
        nextGemId := s.nextGemId + 1 })
  ∧ (∀ ti : Option String, truthyStr ti = false →
      genTitle ti (some "error") = "⛔️ Error") := by
  constructor
  · intro t s hsk htag
    obtain ⟨i, tag, a, cs, tx, ln⟩ := t
    simp [RstNode.tagname] at htag
    subst htag
    simp [dispatchVisit, hsk, SKIPPED_NODES, NOP_NODES, visitByTag, visitAdmonition,
      appendFresh, RstNode.tagname, RstNode.nid]
  · intro ti h
    simp [genTitle, h]

theorem c9_error_admonition_witness :
    dispatchVisit (.mk 1 "error" {} [] "" 0) ⟨⟨some "src"⟩, [], [], none, 0, none, 0⟩ =
      some { (⟨⟨some "src"⟩, [], [], none, 0, none, 0⟩ : TState) with
        nodes := [.admonition 0 (some (.mk 1 "error" {} [] "" 0)) "" [] (some "error") none],
        current := none,
        nextGemId := 1 }
  ∧ genTitle none (some "error") = "⛔️ Error" :=
  ⟨c9_error_admonition.1 (.mk 1 "error" {} [] "" 0) ⟨⟨some "src"⟩, [], [], none, 0, none, 0⟩ rfl rfl,
   c9_error_admonition.2 none rfl⟩

/-- C10: a document without the attached original source text makes
translator construction fail — and hence the whole traversal, for every
tree, before it begins; with the attachment, construction succeeds with
an empty output buffer and an empty diagnostics list. -/
theorem c10_init :
    (∀ d : Document, d.originalRst = none → initTranslator d = none)
  ∧ (∀ (d : Document) (t : RstNode), d.originalRst = none → runTranslator d t = none)
  ∧ (∀ (d : Document) (rst : String), d.originalRst = some rst →
      initTranslator d = some ⟨d, [], [], none, 0, none, 0⟩) := by
  refine ⟨fun d h => ?_, fun d t h => ?_, fun d rst h => ?_⟩
  · simp [initTranslator, h]
  · simp [runTranslator, initTranslator, h]
  · simp [initTranslator, h]

theorem c10_init_witness :
    runTranslator ⟨none⟩ (.mk 0 "document" {} [] "" 0) = none
  ∧ initTranslator ⟨some "text"⟩ = some ⟨⟨some "text"⟩, [], [], none, 0, none, 0⟩ :=
  ⟨c10_init.2.1 ⟨none⟩ (.mk 0 "document" {} [] "" 0) rfl,
   c10_init.2.2 ⟨some "text"⟩ "text" rfl⟩

/-- A concrete buffer for claim C2 in which no node's back-reference
matches the marker id 99. -/
def c2buf : List GNode :=
  [.paragraph 0 (some (.mk 1 "paragraph" {} [] "" 0)) "x",
   .paragraph 1 (some (.mk 2 "paragraph" {} [] "" 0)) "y"]

/-- C2 fails on the code: with a non-empty buffer containing no node
whose back-reference matches the marker, `_split_nodes` does not raise;
the dangling loop variable makes it split before the last element. -/
theorem c2_counterexample :
    (c2buf.all (fun n => !refMatches n 99)) = true
  ∧ splitNodes c2buf 99 = some (c2buf.take 1, c2buf.drop 1)
  ∧ (splitNodes c2buf 99).isSome = true := ⟨rfl, rfl, rfl⟩

/-- C2 amended: the operation fails only on an empty buffer (unbound
loop variable); when the marker is found the buffer is split into the
prefix before the marker's node (retained) and the marker's node plus
everything after it (returned); when the buffer is non-empty and no node
matches, it splits before the last element, without error.  (A node
matches iff `findIdx?` finds it, first occurrence.) -/
theorem c2_split_amended :
    ∀ (buf : List GNode) (m : Nat),
      (buf = [] → splitNodes buf m = none)
    ∧ (∀ j, buf.findIdx? (fun n => refMatches n m) = some j →
          splitNodes buf m = some (buf.take j, buf.drop j))
    ∧ (buf ≠ [] → buf.findIdx? (fun n => refMatches n m) = none →
          splitNodes buf m = some (buf.take (buf.length - 1), buf.drop (buf.length - 1)))
    ∧ (buf.findIdx? (fun n => refMatches n m) = none ↔
          ∀ n ∈ buf, refMatches n m = false) := by
  intro buf m
  refine ⟨fun h => by subst h; rfl, fun j hj => ?_, fun hne hnone => ?_, ?_⟩
  · cases buf with
    | nil => simp [List.findIdx?] at hj
    | cons b bs => simp only [splitNodes, hj]
  · cases buf with
    | nil => exact absurd rfl hne
    | cons b bs => simp only [splitNodes, hnone]
  · rw [List.findIdx?_eq_none_iff]

theorem c2_split_amended_witness :
    splitNodes c2buf 99 = some (c2buf.take (c2buf.length - 1), c2buf.drop (c2buf.length - 1)) :=
  (c2_split_amended c2buf 99).2.2.1 (by simp [c2buf]) rfl

/-! ## Claim C1: the table line-range computation -/

/-- Modelled from the spec sentence (the comparison point for claim C1):
the minimum starting line and the maximum ending line over the
line-bearing descendants, accumulated independently. -/
def spec_tableMinMax (rs : List RstNode) : Option Nat × Nat :=
  rs.foldl (fun acc r =>
    (some (match acc.1 with | none => r.line | some m => min m r.line),
     max acc.2 (getNodeEndLine r))) (none, 0)

/-- A table sub-node with a single line-bearing descendant: three lines
of text starting at line 5 (so its end line is 7). -/
def c1rstP : RstNode := .mk 11 "paragraph" {} [] "a\nb\nc" 5

/-- The table's source node. -/
def c1rstT : RstNode := .mk 10 "table" {} [] "" 4

/-- The translator state at the table's leave event: the placeholder and
one collected paragraph. -/
def c1state : TState :=
  ⟨⟨some "l1\nl2\nl3\nl4\nl5\nl6\nl7\nl8\nl9"⟩,
   [.preformatted 0 (some c1rstT) "" "", .paragraph 1 (some c1rstP) "a b c"],
   [], none, 0, none, 2⟩

/-- C1 is the intent but the code diverges: because the `elif` never
runs in an iteration that lowers `line_min`, the sole descendant leaves
`line_max = 0`; the padded range `[4, 1]` slices an empty line list and
`depart_table` raises (`table_lines[0]`), where the claim's computation
gives the range `[5, 7]` (padded `[4, 8]`). -/
theorem c1_table_range_bug :
    departTable c1rstT c1state = none
  ∧ (searchLinesRecursive c1rstP).foldl tableRangeStep (none, 0) = (some 5, 0)
  ∧ spec_tableMinMax (searchLinesRecursive c1rstP) = (some 5, 7) := ⟨rfl, rfl, rfl⟩

/-! ## Claim C8: serialization -/

/-- Does a string end in a newline? -/
def endsWithNl (s : String) : Bool := s.toList.reverse.take 1 == ['\n']

/-- Does a string end in two newlines? -/
def endsWithTwoNl (s : String) : Bool := s.toList.reverse.take 2 == ['\n', '\n']

/-- The document and tree of the C8 counterexample: a raw Gemtext block
whose accumulated text ends in a newline. -/
def c8doc : Document := ⟨some ".. raw:: gemtext"⟩

def c8tree : RstNode :=
  .mk 0 "document" {}
    [.mk 1 "raw" { format := some "gemtext" } [.mk 2 "#text" {} [] "x\n" 0] "x\n" 1] "" 0

/-- C8 fails on the code: a finalized sequence whose last rendering ends
in a newline serializes to text ending in two newlines, not exactly
one. -/
theorem c8_counterexample :
    translateDocument c8doc c8tree = some "x\n\n"
  ∧ endsWithTwoNl "x\n\n" = true := ⟨rfl, rfl⟩

theorem take1_concat_nl (l : List Char) :
    ((l ++ ['\n']).reverse.take 1 == ['\n']) = true := by
  rw [List.reverse_append]
  rfl

theorem take2_concat_nl (l : List Char) (h : (l.reverse.take 1 == ['\n']) = false) :
    ((l ++ ['\n']).reverse.take 2 == ['\n', '\n']) = false := by
  rw [List.reverse_append]
  simp only [List.reverse_cons, List.reverse_nil, List.nil_append, List.singleton_append,
    List.take]
  cases hr : l.reverse with
  | nil => rfl
  | cons c t =>
    rw [hr] at h
    simp only [List.take] at h ⊢
    simp only [List.cons_beq_cons, List.beq_nil_iff] at h ⊢
    cases hc : c == '\n' with
    | false => simp [hc]
    | true => simp [hc] at h

/-- C8 amended: the output is the renderings joined pairwise by exactly
two newlines followed by one appended newline; it always ends in at
least one newline, and in exactly one whenever the double-newline join
of the renderings does not itself end in a newline. -/
theorem c8_serializer_amended :
    ∀ (ns : List GNode) (rs : List String),
      ns.mapM GNode.toGemtext = some rs →
      serializeNodes ns = some (String.intercalate "\n\n" rs ++ "\n")
    ∧ endsWithNl (String.intercalate "\n\n" rs ++ "\n") = true
    ∧ (endsWithNl (String.intercalate "\n\n" rs) = false →
        endsWithTwoNl (String.intercalate "\n\n" rs ++ "\n") = false) := by
  intro ns rs h
  have hdata : ∀ (a b : String), (a ++ b).toList = a.toList ++ b.toList := by
    intro a b; rfl
  refine ⟨?_, ?_, ?_⟩
  · simp only [serializeNodes, h]
    rfl
  · simp only [endsWithNl, hdata]
    exact take1_concat_nl _
  · intro hlast
    simp only [endsWithNl] at hlast
    simp only [endsWithTwoNl, hdata]
    exact take2_concat_nl _ hlast

theorem c8_serializer_amended_witness :
    serializeNodes [.paragraph 0 none "hi"] = some (String.intercalate "\n\n" ["hi"] ++ "\n")
  ∧ endsWithNl (String.intercalate "\n\n" ["hi"] ++ "\n") = true
  ∧ endsWithTwoNl (String.intercalate "\n\n" ["hi"] ++ "\n") = false := by
  have h := c8_serializer_amended [.paragraph 0 none "hi"] ["hi"] rfl
  exact ⟨h.1, h.2.1, h.2.2 rfl⟩

/-! ## Claim C7 infrastructure: invariants of the traversal -/

mutual
/-- No `SystemMessageNode` anywhere in a Gemtext node's tree. -/
def noSM : GNode → Bool
  | .sysMessage _ _ _ _ _ _ _ _ => false
  | .blockQuote _ _ _ cs | .bulletList _ _ _ cs | .enumList _ _ _ cs _ _ _ _
  | .linkGroup _ _ _ cs | .figure _ _ _ cs | .admonition _ _ _ cs _ _ => noSMList cs
  | _ => true
def noSMList : List GNode → Bool
  | [] => true
  | n :: ns => noSM n && noSMList ns
end

/-- The top-level back-reference points into `S` (or is `none`). -/
def refIn (S : List Nat) (n : GNode) : Bool :=
  match n.ref with
  | none => true
  | some r => decide (r.nid ∈ S)

mutual
/-- Every back-reference in a Gemtext node's tree points into `S` (or is
`none`). -/
def refsOK (S : List Nat) : GNode → Bool
  | .blockQuote g r raw cs => refIn S (.blockQuote g r raw cs) && refsOKList S cs
  | .bulletList g r raw cs => refIn S (.bulletList g r raw cs) && refsOKList S cs
  | .enumList g r raw cs et px sx st =>
      refIn S (.enumList g r raw cs et px sx st) && refsOKList S cs
  | .sysMessage g r raw cs lv src ln ty =>
      refIn S (.sysMessage g r raw cs lv src ln ty) && refsOKList S cs
  | .linkGroup g r raw cs => refIn S (.linkGroup g r raw cs) && refsOKList S cs
  | .figure g r raw cs => refIn S (.figure g r raw cs) && refsOKList S cs
  | .admonition g r raw cs ty ti =>
      refIn S (.admonition g r raw cs ty ti) && refsOKList S cs
  | n => refIn S n
def refsOKList (S : List Nat) : List GNode → Bool
  | [] => true
  | n :: ns => refsOK S n && refsOKList S ns
end

/-- The full per-node invariant carried by the traversal theorems. -/
def okNode (S : List Nat) (n : GNode) : Prop :=
  noSM n = true ∧ refsOK S n = true

mutual
/-- Erase every accumulated raw text (the only thing `visit_Text`'s
mutation can change). -/
def skel : GNode → GNode
  | .paragraph g r _ => .paragraph g r ""
  | .title g r _ lv => .title g r "" lv
  | .preformatted g r _ alt => .preformatted g r "" alt
  | .blockQuote g r _ cs => .blockQuote g r "" (skelList cs)
  | .bulletList g r _ cs => .bulletList g r "" (skelList cs)
  | .enumList g r _ cs et px sx st => .enumList g r "" (skelList cs) et px sx st
  | .listItem g r _ => .listItem g r ""
  | .sysMessage g r _ cs lv src ln ty => .sysMessage g r "" (skelList cs) lv src ln ty
  | .link g r _ rn u => .link g r none rn u
  | .linkGroup g r _ cs => .linkGroup g r "" (skelList cs)
  | .separator g r _ => .separator g r ""
  | .rawNode g r _ f => .rawNode g r "" f
  | .figure g r _ cs => .figure g r "" (skelList cs)
  | .admonition g r _ cs ty ti => .admonition g r "" (skelList cs) ty ti
def skelList : List GNode → List GNode
  | [] => []
  | n :: ns => skel n :: skelList ns
end

theorem skelList_eq_map (l : List GNode) : skelList l = l.map skel := by
  induction l with
  | nil => rfl
  | cons n ns ih => simp [skelList, ih]

theorem skel_ref (n : GNode) : (skel n).ref = n.ref := by
  cases n <;> rfl

theorem skel_gemId (n : GNode) : (skel n).gemId = n.gemId := by
  cases n <;> rfl

mutual
theorem noSM_skel : ∀ n : GNode, noSM (skel n) = noSM n
  | .paragraph _ _ _ | .title _ _ _ _ | .preformatted _ _ _ _ | .listItem _ _ _
  | .link _ _ _ _ _ | .separator _ _ _ | .rawNode _ _ _ _ => by simp [skel, noSM]
  | .sysMessage _ _ _ cs _ _ _ _ => by simp [skel, noSM]
  | .blockQuote _ _ _ cs | .bulletList _ _ _ cs | .enumList _ _ _ cs _ _ _ _
  | .linkGroup _ _ _ cs | .figure _ _ _ cs | .admonition _ _ _ cs _ _ => by
    simp only [skel, noSM]
    exact noSMList_skel cs
theorem noSMList_skel : ∀ l : List GNode, noSMList (skelList l) = noSMList l
  | [] => rfl
  | n :: ns => by
    simp only [skelList, noSMList, noSM_skel n, noSMList_skel ns]
end

theorem refIn_skel (S : List Nat) (n : GNode) : refIn S (skel n) = refIn S n := by
  unfold refIn
  rw [skel_ref]

mutual
theorem refsOK_skel (S : List Nat) : ∀ n : GNode, refsOK S (skel n) = refsOK S n
  | .paragraph _ _ _ | .title _ _ _ _ | .preformatted _ _ _ _ | .listItem _ _ _
  | .link _ _ _ _ _ | .separator _ _ _ | .rawNode _ _ _ _ => by
    simp [skel, refsOK, refIn, GNode.ref]
  | .sysMessage g r raw cs lv src ln ty => by
    simp only [skel, refsOK]
    rw [refsOKList_skel S cs]
    congr 1
  | .blockQuote g r raw cs => by
    simp only [skel, refsOK]
    rw [refsOKList_skel S cs]
    congr 1
  | .bulletList g r raw cs => by
    simp only [skel, refsOK]
    rw [refsOKList_skel S cs]
    congr 1
  | .enumList g r raw cs et px sx st => by
    simp only [skel, refsOK]
    rw [refsOKList_skel S cs]
    congr 1
  | .linkGroup g r raw cs => by
    simp only [skel, refsOK]
    rw [refsOKList_skel S cs]
    congr 1
  | .figure g r raw cs => by
    simp only [skel, refsOK]
    rw [refsOKList_skel S cs]
    congr 1
  | .admonition g r raw cs ty ti => by
    simp only [skel, refsOK]
    rw [refsOKList_skel S cs]
    congr 1
theorem refsOKList_skel (S : List Nat) : ∀ l : List GNode,
    refsOKList S (skelList l) = refsOKList S l
  | [] => rfl
  | n :: ns => by
    simp only [skelList, refsOKList, refsOK_skel S n, refsOKList_skel S ns]
end

theorem noSMList_forall (l : List GNode) :
    noSMList l = true ↔ ∀ n ∈ l, noSM n = true := by
  induction l with
  | nil => simp [noSMList]
  | cons n ns ih => simp [noSMList, ih]

theorem refsOKList_forall (S : List Nat) (l : List GNode) :
    refsOKList S l = true ↔ ∀ n ∈ l, refsOK S n = true := by
  induction l with
  | nil => simp [refsOKList]
  | cons n ns ih => simp [refsOKList, ih]

theorem okNode_of_skel_eq {S : List Nat} {a b : GNode} (h : skel a = skel b)
    (hb : okNode S b) : okNode S a := by
  obtain ⟨h1, h2⟩ := hb
  constructor
  · rw [← noSM_skel a, h, noSM_skel b]; exact h1
  · rw [← refsOK_skel S a, h, refsOK_skel S b]; exact h2

theorem ref_of_skel_eq {a b : GNode} (h : skel a = skel b) : a.ref = b.ref := by
  rw [← skel_ref a, h, skel_ref b]

/-- Transport a pointwise property along `skelList` equality. -/
theorem mem_skel_transfer {A B : List GNode} (h : skelList A = skelList B) :
    ∀ a ∈ A, ∃ b ∈ B, skel a = skel b := by
  intro a ha
  rw [skelList_eq_map, skelList_eq_map] at h
  have : skel a ∈ B.map skel := by
    rw [← h]
    exact List.mem_map_of_mem skel ha
  obtain ⟨b, hb, hba⟩ := List.mem_map.mp this
  exact ⟨b, hb, hba.symm⟩

theorem refIn_mono {S S' : List Nat} (hss : ∀ x ∈ S, x ∈ S') (n : GNode)
    (h : refIn S n = true) : refIn S' n = true := by
  unfold refIn at h ⊢
  cases hr : n.ref with
  | none => rfl
  | some r =>
    rw [hr] at h
    simp only [decide_eq_true_eq] at h ⊢
    exact hss _ h

mutual
theorem refsOK_mono {S S' : List Nat} (hss : ∀ x ∈ S, x ∈ S') :
    ∀ n : GNode, refsOK S n = true → refsOK S' n = true
  | .paragraph _ _ _, h | .title _ _ _ _, h | .preformatted _ _ _ _, h
  | .listItem _ _ _, h | .link _ _ _ _ _, h | .separator _ _ _, h
  | .rawNode _ _ _ _, h => by
    simp only [refsOK] at h ⊢
    exact refIn_mono hss _ h
  | .blockQuote g r raw cs, h | .bulletList g r raw cs, h
  | .linkGroup g r raw cs, h | .figure g r raw cs, h => by
    simp only [refsOK, Bool.and_eq_true] at h ⊢
    exact ⟨refIn_mono hss _ h.1, refsOKList_mono hss cs h.2⟩
  | .enumList g r raw cs et px sx st, h => by
    simp only [refsOK, Bool.and_eq_true] at h ⊢
    exact ⟨refIn_mono hss _ h.1, refsOKList_mono hss cs h.2⟩
  | .sysMessage g r raw cs lv src ln ty, h => by
    simp only [refsOK, Bool.and_eq_true] at h ⊢
    exact ⟨refIn_mono hss _ h.1, refsOKList_mono hss cs h.2⟩
  | .admonition g r raw cs ty ti, h => by
    simp only [refsOK, Bool.and_eq_true] at h ⊢
    exact ⟨refIn_mono hss _ h.1, refsOKList_mono hss cs h.2⟩
theorem refsOKList_mono {S S' : List Nat} (hss : ∀ x ∈ S, x ∈ S') :
    ∀ l : List GNode, refsOKList S l = true → refsOKList S' l = true
  | [], _ => rfl
  | n :: ns, h => by
    simp only [refsOKList, Bool.and_eq_true] at h ⊢
    exact ⟨refsOK_mono hss n h.1, refsOKList_mono hss ns h.2⟩
end

theorem okNode_mono {S S' : List Nat} (hss : ∀ x ∈ S, x ∈ S') {n : GNode}
    (h : okNode S n) : okNode S' n :=
  ⟨h.1, refsOK_mono hss n h.2⟩

theorem appendText_skel {n n' : GNode} {t : String} (h : n.appendText t = some n') :
    skel n' = skel n := by
  cases n <;> simp only [GNode.appendText] at h
  case link g r ro rn u =>
    cases ro with
    | none => exact absurd h (by simp)
    | some s =>
      simp only [Option.some.injEq] at h
      subst h
      rfl
  all_goals (simp only [Option.some.injEq] at h; subst h; rfl)

mutual
theorem mutNode_skel : ∀ (n n' : GNode) (gid : Nat) (txt : String),
    mutNode n gid txt = some n' → skel n' = skel n
  | .blockQuote g r raw cs, n', gid, txt => by
    intro h
    rw [mutNode] at h
    split at h
    · exact appendText_skel h
    · obtain ⟨cs', hm, hEq⟩ := Option.bind_eq_some.mp h
      simp only [Option.some.injEq] at hEq
      subst hEq
      simp only [skel]
      rw [mutForest_skel cs cs' gid txt hm]
  | .bulletList g r raw cs, n', gid, txt => by
    intro h
    rw [mutNode] at h
    split at h
    · exact appendText_skel h
    · obtain ⟨cs', hm, hEq⟩ := Option.bind_eq_some.mp h
      simp only [Option.some.injEq] at hEq
      subst hEq
      simp only [skel]
      rw [mutForest_skel cs cs' gid txt hm]
  | .enumList g r raw cs et px sx st, n', gid, txt => by
    intro h
    rw [mutNode] at h
    split at h
    · exact appendText_skel h
    · obtain ⟨cs', hm, hEq⟩ := Option.bind_eq_some.mp h
      simp only [Option.some.injEq] at hEq
      subst hEq
      simp only [skel]
      rw [mutForest_skel cs cs' gid txt hm]
  | .sysMessage g r raw cs lv src ln ty, n', gid, txt => by
    intro h
    rw [mutNode] at h
    split at h
    · exact appendText_skel h
    · obtain ⟨cs', hm, hEq⟩ := Option.bind_eq_some.mp h
      simp only [Option.some.injEq] at hEq
      subst hEq
      simp only [skel]
      rw [mutForest_skel cs cs' gid txt hm]
  | .linkGroup g r raw cs, n', gid, txt => by
    intro h
    rw [mutNode] at h
    split at h
    · exact appendText_skel h
    · obtain ⟨cs', hm, hEq⟩ := Option.bind_eq_some.mp h
      simp only [Option.some.injEq] at hEq
      subst hEq
      simp only [skel]
      rw [mutForest_skel cs cs' gid txt hm]
  | .figure g r raw cs, n', gid, txt => by
    intro h
    rw [mutNode] at h
    split at h
    · exact appendText_skel h
    · obtain ⟨cs', hm, hEq⟩ := Option.bind_eq_some.mp h
      simp only [Option.some.injEq] at hEq
      subst hEq
      simp only [skel]
      rw [mutForest_skel cs cs' gid txt hm]
  | .admonition g r raw cs ty ti, n', gid, txt => by
    intro h
    rw [mutNode] at h
    split at h
    · exact appendText_skel h
    · obtain ⟨cs', hm, hEq⟩ := Option.bind_eq_some.mp h
      simp only [Option.some.injEq] at hEq
      subst hEq
      simp only [skel]
      rw [mutForest_skel cs cs' gid txt hm]
  | .paragraph g r raw, n', gid, txt => by
    intro h
    rw [mutNode] at h
    split at h
    · exact appendText_skel h
    · simp only [Option.some.injEq] at h
      subst h
      rfl
  | .title g r raw lv, n', gid, txt => by
    intro h
    rw [mutNode] at h
    split at h
    · exact appendText_skel h
    · simp only [Option.some.injEq] at h
      subst h
      rfl
  | .preformatted g r raw alt, n', gid, txt => by
    intro h
    rw [mutNode] at h
    split at h
    · exact appendText_skel h
    · simp only [Option.some.injEq] at h
      subst h
      rfl
  | .listItem g r raw, n', gid, txt => by
    intro h
    rw [mutNode] at h
    split at h
    · exact appendText_skel h
    · simp only [Option.some.injEq] at h
      subst h
      rfl
  | .link g r ro rn u, n', gid, txt => by
    intro h
    rw [mutNode] at h
    split at h
    · exact appendText_skel h
    · simp only [Option.some.injEq] at h
      subst h
      rfl
  | .separator g r raw, n', gid, txt => by
    intro h
    rw [mutNode] at h
    split at h
    · exact appendText_skel h
    · simp only [Option.some.injEq] at h
      subst h
      rfl
  | .rawNode g r raw f, n', gid, txt => by
    intro h
    rw [mutNode] at h
    split at h
    · exact appendText_skel h
    · simp only [Option.some.injEq] at h
      subst h
      rfl
theorem mutForest_skel : ∀ (l l' : List GNode) (gid : Nat) (txt : String),
    mutForest l gid txt = some l' → skelList l' = skelList l
  | [], l', gid, txt => by
    intro h
    rw [mutForest] at h
    simp only [Option.some.injEq] at h
    subst h
    rfl
  | n :: ns, l', gid, txt => by
    intro h
    rw [mutForest] at h
    obtain ⟨n', hn, h2⟩ := Option.bind_eq_some.mp h
    obtain ⟨ns', hns, h3⟩ := Option.bind_eq_some.mp h2
    simp only [Option.some.injEq] at h3
    subst h3
    simp only [skelList, mutNode_skel n n' gid txt hn, mutForest_skel ns ns' gid txt hns]
end

theorem skelList_append (a b : List GNode) :
    skelList (a ++ b) = skelList a ++ skelList b := by
  rw [skelList_eq_map, skelList_eq_map, skelList_eq_map, List.map_append]

theorem skelList_length (l : List GNode) : (skelList l).length = l.length := by
  rw [skelList_eq_map, List.length_map]

theorem skelList_eq_nil {l : List GNode} (h : skelList l = []) : l = [] := by
  cases l with
  | nil => rfl
  | cons n ns => simp [skelList] at h

/-- The buffer-evolution invariant: the new buffer is the old one (with
possibly mutated raw texts) followed by freshly produced nodes that are
free of system messages and whose back-references stay inside `S`. -/
def BufExt (S : List Nat) (old new : List GNode) : Prop :=
  ∃ B Δ, new = B ++ Δ ∧ skelList B = skelList old ∧ ∀ n ∈ Δ, okNode S n

theorem BufExt.refl (S : List Nat) (l : List GNode) : BufExt S l l :=
  ⟨l, [], by simp, rfl, by simp⟩

theorem BufExt.of_skelList_eq {S : List Nat} {old new : List GNode}
    (h : skelList new = skelList old) : BufExt S old new :=
  ⟨new, [], by simp, h, by simp⟩

theorem skelList_take (k : Nat) (l : List GNode) :
    skelList (l.take k) = (skelList l).take k := by
  rw [skelList_eq_map, skelList_eq_map, List.map_take]

theorem skelList_drop (k : Nat) (l : List GNode) :
    skelList (l.drop k) = (skelList l).drop k := by
  rw [skelList_eq_map, skelList_eq_map, List.map_drop]

theorem BufExt.trans_mono {S₁ S₂ S : List Nat} {a b c : List GNode}
    (h₁ : BufExt S₁ a b) (h₂ : BufExt S₂ b c)
    (hs₁ : ∀ x ∈ S₁, x ∈ S) (hs₂ : ∀ x ∈ S₂, x ∈ S) : BufExt S a c := by
  obtain ⟨B₁, Δ₁, rfl, hB₁, hΔ₁⟩ := h₁
  obtain ⟨B₂, Δ₂, rfl, hB₂, hΔ₂⟩ := h₂
  rw [skelList_append] at hB₂
  have e1 : skelList (B₂.take B₁.length) = skelList B₁ := by
    rw [skelList_take, hB₂, List.take_left' (skelList_length B₁)]
  have e2 : skelList (B₂.drop B₁.length) = skelList Δ₁ := by
    rw [skelList_drop, hB₂, List.drop_left' (skelList_length B₁)]
  refine ⟨B₂.take B₁.length, B₂.drop B₁.length ++ Δ₂, ?_, ?_, ?_⟩
  · rw [← List.append_assoc, List.take_append_drop]
  · rw [e1]; exact hB₁
  · intro n hn
    rcases List.mem_append.mp hn with hn | hn
    · obtain ⟨d, hd, hsk⟩ := mem_skel_transfer e2 n hn
      exact okNode_mono hs₁ (okNode_of_skel_eq hsk (hΔ₁ d hd))
    · exact okNode_mono hs₂ (hΔ₂ n hn)

theorem BufExt.mono {S S' : List Nat} {a b : List GNode}
    (h : BufExt S a b) (hs : ∀ x ∈ S, x ∈ S') : BufExt S' a b :=
  BufExt.trans_mono h (BufExt.refl S' b) hs (fun _ hx => hx)

/-- Appending invariant-satisfying nodes preserves the relation. -/
theorem BufExt.append_ok {S : List Nat} {a b Δ' : List GNode}
    (h : BufExt S a b) (hΔ' : ∀ n ∈ Δ', okNode S n) : BufExt S a (b ++ Δ') := by
  obtain ⟨B, Δ, rfl, hB, hΔ⟩ := h
  refine ⟨B, Δ ++ Δ', by rw [List.append_assoc], hB, ?_⟩
  intro n hn
  rcases List.mem_append.mp hn with hn | hn
  · exact hΔ n hn
  · exact hΔ' n hn

/-! ### Locating the marker after children processing -/

theorem findIdx_first (B R : List GNode) (ph : GNode) (m : Nat)
    (hB : ∀ n ∈ B, refMatches n m = false) (hph : refMatches ph m = true) :
    (B ++ ph :: R).findIdx? (fun n => refMatches n m) = some B.length := by
  induction B with
  | nil => simp [List.findIdx?_cons, hph]
  | cons b bs ih =>
    have hb : refMatches b m = false := hB b (List.mem_cons_self b bs)
    rw [List.cons_append, List.findIdx?_cons, hb]
    simp only [Bool.false_eq_true, if_false]
    rw [List.findIdx?_succ, ih (fun n hn => hB n (List.mem_cons_of_mem b hn))]
    rfl

theorem splitNodes_eq_found (buf : List GNode) (m j : Nat)
    (hne : buf ≠ []) (hj : buf.findIdx? (fun n => refMatches n m) = some j) :
    splitNodes buf m = some (buf.take j, buf.drop j) := by
  cases buf with
  | nil => exact absurd rfl hne
  | cons b bs => simp only [splitNodes, hj]

/-- When the retained prefix holds no match and the placeholder does,
`_split_nodes` finds exactly the placeholder. -/
theorem splitNodes_append (B R : List GNode) (ph : GNode) (m : Nat)
    (hB : ∀ n ∈ B, refMatches n m = false) (hph : refMatches ph m = true) :
    splitNodes (B ++ ph :: R) m = some (B, ph :: R) := by
  rw [splitNodes_eq_found (B ++ ph :: R) m B.length (by simp)
    (findIdx_first B R ph m hB hph)]
  rw [List.take_left, List.drop_left]

/-! ### Recovering a placeholder's class after children processing -/

theorem skel_admonition_inv {n : GNode} {g : Nat} {r : Option RstNode} {ty ti : Option String}
    (h : skel n = .admonition g r "" [] ty ti) :
    ∃ raw, n = .admonition g r raw [] ty ti := by
  cases n <;> try exact GNode.noConfusion h
  case admonition g' r' raw' cs' ty' ti' =>
    injection h with hg hr hraw hcs hty hti
    subst hg; subst hr; subst hty; subst hti
    rw [skelList_eq_nil hcs]
    exact ⟨raw', rfl⟩

theorem skel_blockQuote_inv {n : GNode} {g : Nat} {r : Option RstNode}
    (h : skel n = .blockQuote g r "" []) :
    ∃ raw, n = .blockQuote g r raw [] := by
  cases n <;> try exact GNode.noConfusion h
  case blockQuote g' r' raw' cs' =>
    injection h with hg hr hraw hcs
    subst hg; subst hr
    rw [skelList_eq_nil hcs]
    exact ⟨raw', rfl⟩

theorem skel_bulletList_inv {n : GNode} {g : Nat} {r : Option RstNode}
    (h : skel n = .bulletList g r "" []) :
    ∃ raw, n = .bulletList g r raw [] := by
  cases n <;> try exact GNode.noConfusion h
  case bulletList g' r' raw' cs' =>
    injection h with hg hr hraw hcs
    subst hg; subst hr
    rw [skelList_eq_nil hcs]
    exact ⟨raw', rfl⟩

theorem skel_enumList_inv {n : GNode} {g : Nat} {r : Option RstNode} {et px sx : String} {st : Nat}
    (h : skel n = .enumList g r "" [] et px sx st) :
    ∃ raw, n = .enumList g r raw [] et px sx st := by
  cases n <;> try exact GNode.noConfusion h
  case enumList g' r' raw' cs' et' px' sx' st' =>
    injection h with hg hr hraw hcs het hpx hsx hst
    subst hg; subst hr; subst het; subst hpx; subst hsx; subst hst
    rw [skelList_eq_nil hcs]
    exact ⟨raw', rfl⟩

theorem skel_figure_inv {n : GNode} {g : Nat} {r : Option RstNode}
    (h : skel n = .figure g r "" []) :
    ∃ raw, n = .figure g r raw [] := by
  cases n <;> try exact GNode.noConfusion h
  case figure g' r' raw' cs' =>
    injection h with hg hr hraw hcs
    subst hg; subst hr
    rw [skelList_eq_nil hcs]
    exact ⟨raw', rfl⟩

theorem skel_listItem_inv {n : GNode} {g : Nat} {r : Option RstNode}
    (h : skel n = .listItem g r "") :
    ∃ raw, n = .listItem g r raw := by
  cases n <;> try exact GNode.noConfusion h
  case listItem g' r' raw' =>
    injection h with hg hr hraw
    subst hg; subst hr
    exact ⟨raw', rfl⟩

theorem skel_sysMessage_inv {n : GNode} {g : Nat} {r : Option RstNode} {lv : Nat} {src : String} {ln : Nat} {ty : String}
    (h : skel n = .sysMessage g r "" [] lv src ln ty) :
    ∃ raw, n = .sysMessage g r raw [] lv src ln ty := by
  cases n <;> try exact GNode.noConfusion h
  case sysMessage g' r' raw' cs' lv' src' ln' ty' =>
    injection h with hg hr hraw hcs hlv hsrc hln hty
    subst hg; subst hr; subst hlv; subst hsrc; subst hln; subst hty
    rw [skelList_eq_nil hcs]
    exact ⟨raw', rfl⟩

theorem skel_preformatted_inv {n : GNode} {g : Nat} {r : Option RstNode} {alt : String}
    (h : skel n = .preformatted g r "" alt) :
    ∃ raw, n = .preformatted g r raw alt := by
  cases n <;> try exact GNode.noConfusion h
  case preformatted g' r' raw' alt' =>
    injection h with hg hr hraw halt
    subst hg; subst hr; subst halt
    exact ⟨raw', rfl⟩

theorem skel_paragraph_inv {n : GNode} {g : Nat} {r : Option RstNode}
    (h : skel n = .paragraph g r "") :
    ∃ raw, n = .paragraph g r raw := by
  cases n <;> try exact GNode.noConfusion h
  case paragraph g' r' raw' =>
    injection h with hg hr hraw
    subst hg; subst hr
    exact ⟨raw', rfl⟩

theorem skel_rawNode_inv {n : GNode} {g : Nat} {r : Option RstNode} {f : String}
    (h : skel n = .rawNode g r "" f) :
    ∃ raw, n = .rawNode g r raw f := by
  cases n <;> try exact GNode.noConfusion h
  case rawNode g' r' raw' f' =>
    injection h with hg hr hraw hf
    subst hg; subst hr; subst hf
    exact ⟨raw', rfl⟩

/-! ### Decomposing the invariant over group children -/

theorem okNode_group_children {S : List Nat} {n : GNode} {cs : List GNode}
    (hcs : n.childrenOf = some cs) (h : okNode S n) : ∀ c ∈ cs, okNode S c := by
  intro c hc
  obtain ⟨h1, h2⟩ := h
  cases n <;> simp only [GNode.childrenOf] at hcs
  case sysMessage g r raw cs' lv src ln ty => simp [noSM] at h1
  all_goals {
    first
    | exact Option.noConfusion hcs
    | { injection hcs with hcs'
        subst hcs'
        simp only [noSM, refsOK, Bool.and_eq_true] at h1 h2
        exact ⟨(noSMList_forall _).mp h1 c hc, (refsOKList_forall S _).mp h2.2 c hc⟩ } }

theorem okNode_linkGroup_children {S : List Nat} {g : Nat} {r : Option RstNode}
    {raw : String} {cs : List GNode} (h : okNode S (.linkGroup g r raw cs)) :
    ∀ c ∈ cs, okNode S c :=
  okNode_group_children (by rfl) h

/-! ### Invariant builders -/

theorem refMatches_of_ref_some {t : RstNode} {n : GNode} (h : n.ref = some t) :
    refMatches n t.nid = true := by
  unfold refMatches
  rw [h]
  simp

theorem refIn_of_ref_some {S : List Nat} {t : RstNode} {n : GNode}
    (h : n.ref = some t) (ht : t.nid ∈ S) : refIn S n = true := by
  unfold refIn
  rw [h]
  simpa

theorem refIn_of_ref_none {S : List Nat} {n : GNode} (h : n.ref = none) :
    refIn S n = true := by
  unfold refIn
  rw [h]

theorem okNode_admonition_mk {S : List Nat} {g : Nat} {r : Option RstNode}
    {raw : String} {cs : List GNode} {ty ti : Option String}
    (hr : refIn S (.admonition g r raw cs ty ti) = true)
    (hcs : ∀ c ∈ cs, okNode S c) : okNode S (.admonition g r raw cs ty ti) := by
  refine ⟨(noSMList_forall cs).mpr (fun c hc => (hcs c hc).1), ?_⟩
  show (refIn S _ && refsOKList S cs) = true
  rw [hr, (refsOKList_forall S cs).mpr (fun c hc => (hcs c hc).2)]
  rfl

theorem okNode_blockQuote_mk {S : List Nat} {g : Nat} {r : Option RstNode}
    {raw : String} {cs : List GNode}
    (hr : refIn S (.blockQuote g r raw cs) = true)
    (hcs : ∀ c ∈ cs, okNode S c) : okNode S (.blockQuote g r raw cs) := by
  refine ⟨(noSMList_forall cs).mpr (fun c hc => (hcs c hc).1), ?_⟩
  show (refIn S _ && refsOKList S cs) = true
  rw [hr, (refsOKList_forall S cs).mpr (fun c hc => (hcs c hc).2)]
  rfl

theorem okNode_bulletList_mk {S : List Nat} {g : Nat} {r : Option RstNode}
    {raw : String} {cs : List GNode}
    (hr : refIn S (.bulletList g r raw cs) = true)
    (hcs : ∀ c ∈ cs, okNode S c) : okNode S (.bulletList g r raw cs) := by
  refine ⟨(noSMList_forall cs).mpr (fun c hc => (hcs c hc).1), ?_⟩
  show (refIn S _ && refsOKList S cs) = true
  rw [hr, (refsOKList_forall S cs).mpr (fun c hc => (hcs c hc).2)]
  rfl

theorem okNode_enumList_mk {S : List Nat} {g : Nat} {r : Option RstNode}
    {raw : String} {cs : List GNode} {et px sx : String} {st : Nat}
    (hr : refIn S (.enumList g r raw cs et px sx st) = true)
    (hcs : ∀ c ∈ cs, okNode S c) : okNode S (.enumList g r raw cs et px sx st) := by
  refine ⟨(noSMList_forall cs).mpr (fun c hc => (hcs c hc).1), ?_⟩
  show (refIn S _ && refsOKList S cs) = true
  rw [hr, (refsOKList_forall S cs).mpr (fun c hc => (hcs c hc).2)]
  rfl

theorem okNode_linkGroup_mk {S : List Nat} {g : Nat} {r : Option RstNode}
    {raw : String} {cs : List GNode}
    (hr : refIn S (.linkGroup g r raw cs) = true)
    (hcs : ∀ c ∈ cs, okNode S c) : okNode S (.linkGroup g r raw cs) := by
  refine ⟨(noSMList_forall cs).mpr (fun c hc => (hcs c hc).1), ?_⟩
  show (refIn S _ && refsOKList S cs) = true
  rw [hr, (refsOKList_forall S cs).mpr (fun c hc => (hcs c hc).2)]
  rfl

theorem okNode_figure_mk {S : List Nat} {g : Nat} {r : Option RstNode}
    {raw : String} {cs : List GNode}
    (hr : refIn S (.figure g r raw cs) = true)
    (hcs : ∀ c ∈ cs, okNode S c) : okNode S (.figure g r raw cs) := by
  refine ⟨(noSMList_forall cs).mpr (fun c hc => (hcs c hc).1), ?_⟩
  show (refIn S _ && refsOKList S cs) = true
  rw [hr, (refsOKList_forall S cs).mpr (fun c hc => (hcs c hc).2)]
  rfl

/-- Leaf classes: `okNode` reduces to the back-reference condition. -/
theorem okNode_leaf {S : List Nat} {n : GNode}
    (hleaf : n.childrenOf = none) (hnsm : n.isSysMessageNode = false)
    (hr : refIn S n = true) : okNode S n := by
  cases n <;> simp only [GNode.childrenOf] at hleaf <;>
    first
    | exact Option.noConfusion hleaf
    | exact ⟨rfl, hr⟩

/-! ### Per-handler invariant preservation -/

theorem departAdmonition_ok {t : RstNode} {S : List Nat} (ht : t.nid ∈ S)
    {ty : Option String} {g : Nat} {raw : String} {s s' : TState}
    {B Δc : List GNode}
    (hnodes : s.nodes = B ++ (GNode.admonition g (some t) raw [] ty none) :: Δc)
    (hB : ∀ n ∈ B, refMatches n t.nid = false)
    (hΔ : ∀ n ∈ Δc, okNode S n)
    (hrun : departAdmonition t s = some s') :
    (∃ Δ, s'.nodes = B ++ Δ ∧ ∀ n ∈ Δ, okNode S n) ∧ s'.skipped = s.skipped := by
  obtain ⟨⟨before, suffix⟩, hsp, hrest⟩ := Option.bind_eq_some.mp hrun
  have hm : refMatches (GNode.admonition g (some t) raw [] ty none) t.nid = true :=
    refMatches_of_ref_some rfl
  rw [hnodes, splitNodes_append B Δc _ t.nid hB hm] at hsp
  injection hsp with hsp
  injection hsp with hbefore hsuffix
  subst hbefore
  subst hsuffix
  simp only at hrest
  cases ty with
  | some ty' =>
    simp only [Option.some.injEq] at hrest
    subst hrest
    refine ⟨⟨[.admonition g (some t) raw Δc (some ty') none], rfl, ?_⟩, rfl⟩
    intro n hn
    simp only [List.mem_singleton] at hn
    subst hn
    exact okNode_admonition_mk (refIn_of_ref_some rfl ht) hΔ
  | none =>
    cases Δc with
    | nil => exact absurd hrest (by simp)
    | cons x xs =>
      have hxs : ∀ n ∈ xs, okNode S n := fun n hn => hΔ n (List.mem_cons_of_mem x hn)
      cases x with
      | title gx rx rawx lvx =>
        simp only [Option.some.injEq] at hrest
        subst hrest
        refine ⟨⟨[.admonition g (some t) raw xs none (some rawx)], rfl, ?_⟩, rfl⟩
        intro n hn
        simp only [List.mem_singleton] at hn
        subst hn
        exact okNode_admonition_mk (refIn_of_ref_some rfl ht) hxs
      | paragraph gx rx rawx =>
        simp only [Option.some.injEq] at hrest
        subst hrest
        refine ⟨⟨[.admonition g (some t) raw (GNode.paragraph gx rx rawx :: xs) none none], rfl, ?_⟩, rfl⟩
        intro n hn
        simp only [List.mem_singleton] at hn
        subst hn
        exact okNode_admonition_mk (refIn_of_ref_some rfl ht) hΔ
      | _ =>
        simp only [Option.some.injEq] at hrest
        subst hrest
        exact ⟨⟨[.admonition g (some t) raw (_ :: xs) none none], rfl, by
          intro n hn
          simp only [List.mem_singleton] at hn
          subst hn
          exact okNode_admonition_mk (refIn_of_ref_some rfl ht) hΔ⟩, rfl⟩

theorem partitionLinks_ok {S : List Nat} :
    ∀ l : List GNode, (∀ n ∈ l, okNode S n) →
      (∀ x ∈ (partitionLinks l).1, okNode S x) ∧
      (∀ x ∈ (partitionLinks l).2, okNode S x)
  | [], _ => by simp [partitionLinks]
  | n :: ns, h => by
    have ih := partitionLinks_ok ns (fun x hx => h x (List.mem_cons_of_mem n hx))
    have hn := h n (List.mem_cons_self n ns)
    rcases hp : partitionLinks ns with ⟨ls, bs⟩
    rw [hp] at ih
    cases n with
    | link g r ro rn u =>
      simp only [partitionLinks, hp]
      constructor
      · intro x hx
        rcases List.mem_cons.mp hx with rfl | hx
        · exact hn
        · exact ih.1 x hx
      · exact ih.2
    | linkGroup g r raw cs =>
      simp only [partitionLinks, hp]
      constructor
      · intro x hx
        rcases List.mem_append.mp hx with hx | hx
        · exact okNode_linkGroup_children hn x hx
        · exact ih.1 x hx
      · exact ih.2
    | _ =>
      simp only [partitionLinks, hp]
      refine ⟨ih.1, ?_⟩
      intro x hx
      rcases List.mem_cons.mp hx with rfl | hx
      · exact hn
      · exact ih.2 x hx

theorem appendFresh_nodes (s : TState) (f : Nat → GNode) :
    (appendFresh s f).nodes = s.nodes ++ [f s.nextGemId] := rfl

theorem appendGroupAndLinks_ok {S : List Nat} {s : TState} {before : List GNode}
    {ph : GNode} {body links : List GNode}
    (hph : okNode S (ph.setChildrenDyn body))
    (hlinks : ∀ n ∈ links, okNode S n) :
    (∃ Δ, (appendGroupAndLinks s before ph body links).nodes = before ++ Δ ∧
      ∀ n ∈ Δ, okNode S n)
    ∧ (appendGroupAndLinks s before ph body links).skipped = s.skipped := by
  unfold appendGroupAndLinks
  have hbase : ∀ P : Prop, P → P := fun _ p => p
  by_cases hb : body.isEmpty
  · simp only [hb, Bool.not_true, Bool.false_eq_true, if_false]
    cases links with
    | nil => exact ⟨⟨[], by simp, by simp⟩, rfl⟩
    | cons l ls =>
      cases ls with
      | nil =>
        refine ⟨⟨[l], rfl, ?_⟩, rfl⟩
        intro n hn
        simp only [List.mem_singleton] at hn
        subst hn
        exact hlinks _ (List.mem_cons_self _ _)
      | cons l2 ls2 =>
        refine ⟨⟨[.linkGroup s.nextGemId none "" (l :: l2 :: ls2)], rfl, ?_⟩, rfl⟩
        intro n hn
        simp only [List.mem_singleton] at hn
        subst hn
        exact okNode_linkGroup_mk (refIn_of_ref_none rfl) hlinks
  · simp only [hb, Bool.not_false, if_true]
    cases links with
    | nil =>
      refine ⟨⟨[ph.setChildrenDyn body], rfl, ?_⟩, rfl⟩
      intro n hn
      simp only [List.mem_singleton] at hn
      subst hn
      exact hph
    | cons l ls =>
      cases ls with
      | nil =>
        refine ⟨⟨[ph.setChildrenDyn body, l], by simp, ?_⟩, rfl⟩
        intro n hn
        rcases List.mem_cons.mp hn with rfl | hn
        · exact hph
        · simp only [List.mem_singleton] at hn
          subst hn
          exact hlinks _ (List.mem_cons_self _ _)
      | cons l2 ls2 =>
        refine ⟨⟨[ph.setChildrenDyn body, .linkGroup s.nextGemId none "" (l :: l2 :: ls2)],
          by simp [appendFresh], ?_⟩, rfl⟩
        intro n hn
        rcases List.mem_cons.mp hn with rfl | hn
        · exact hph
        · simp only [List.mem_singleton] at hn
          subst hn
          exact okNode_linkGroup_mk (refIn_of_ref_none rfl) hlinks

theorem departBlockQuote_ok {t : RstNode} {S : List Nat} (ht : t.nid ∈ S)
    {g : Nat} {raw : String} {s s' : TState} {B Δc : List GNode}
    (hnodes : s.nodes = B ++ (GNode.blockQuote g (some t) raw []) :: Δc)
    (hB : ∀ n ∈ B, refMatches n t.nid = false)
    (hΔ : ∀ n ∈ Δc, okNode S n)
    (hrun : departBlockQuote t s = some s') :
    (∃ Δ, s'.nodes = B ++ Δ ∧ ∀ n ∈ Δ, okNode S n) ∧ s'.skipped = s.skipped := by
  obtain ⟨⟨before, suffix⟩, hsp, hrest⟩ := Option.bind_eq_some.mp hrun
  have hm : refMatches (GNode.blockQuote g (some t) raw []) t.nid = true :=
    refMatches_of_ref_some rfl
  rw [hnodes, splitNodes_append B Δc _ t.nid hB hm] at hsp
  injection hsp with hsp
  injection hsp with hbefore hsuffix
  subst hbefore
  subst hsuffix
  simp only [GNode.childrenOf, Option.bind_eq_bind, Option.some_bind, List.nil_append] at hrest
  rcases hp : partitionLinks Δc with ⟨links, body⟩
  rw [hp] at hrest
  simp only [Option.some.injEq] at hrest
  subst hrest
  have hpl := partitionLinks_ok (S := S) Δc hΔ
  rw [hp] at hpl
  have hph : okNode S ((GNode.blockQuote g (some t) raw []).setChildrenDyn body) :=
    okNode_blockQuote_mk (refIn_of_ref_some rfl ht) hpl.2
  exact appendGroupAndLinks_ok hph hpl.1

theorem departBulletList_ok {t : RstNode} {S : List Nat} (ht : t.nid ∈ S)
    {g : Nat} {raw : String} {ph : GNode} {s s' : TState} {B Δc : List GNode}
    (hph : ph = GNode.bulletList g (some t) raw [] ∨
      ∃ et px sx st, ph = GNode.enumList g (some t) raw [] et px sx st)
    (hnodes : s.nodes = B ++ ph :: Δc)
    (hB : ∀ n ∈ B, refMatches n t.nid = false)
    (hΔ : ∀ n ∈ Δc, okNode S n)
    (hrun : departBulletList t s = some s') :
    (∃ Δ, s'.nodes = B ++ Δ ∧ ∀ n ∈ Δ, okNode S n) ∧ s'.skipped = s.skipped := by
  obtain ⟨⟨before, suffix⟩, hsp, hrest⟩ := Option.bind_eq_some.mp hrun
  have hm : refMatches ph t.nid = true := by
    rcases hph with rfl | ⟨et, px, sx, st, rfl⟩ <;> exact refMatches_of_ref_some rfl
  rw [hnodes, splitNodes_append B Δc _ t.nid hB hm] at hsp
  injection hsp with hsp
  injection hsp with hbefore hsuffix
  subst hbefore
  subst hsuffix
  rcases hp : partitionLinks Δc with ⟨links, body⟩
  have hpl := partitionLinks_ok (S := S) Δc hΔ
  rw [hp] at hpl
  rcases hph with rfl | ⟨et, px, sx, st, rfl⟩
  · simp only [GNode.childrenOf, Option.bind_eq_bind, Option.some_bind, List.nil_append,
      hp] at hrest
    simp only [Option.some.injEq] at hrest
    subst hrest
    have hphx : okNode S ((GNode.bulletList g (some t) raw []).setChildrenDyn body) :=
      okNode_bulletList_mk (refIn_of_ref_some rfl ht) hpl.2
    exact appendGroupAndLinks_ok hphx hpl.1
  · simp only [GNode.childrenOf, Option.bind_eq_bind, Option.some_bind, List.nil_append,
      hp] at hrest
    simp only [Option.some.injEq] at hrest
    subst hrest
    have hphx : okNode S ((GNode.enumList g (some t) raw [] et px sx st).setChildrenDyn body) :=
      okNode_enumList_mk (refIn_of_ref_some rfl ht) hpl.2
    exact appendGroupAndLinks_ok hphx hpl.1

theorem okNode_of_getLast? {S : List Nat} {l : List GNode} {n : GNode}
    (h : l.getLast? = some n) (hl : ∀ x ∈ l, okNode S x) : okNode S n :=
  hl n (List.mem_of_getLast?_eq_some h)

theorem ok_snoc {S : List Nat} {a : List GNode} {m : GNode}
    (ha : ∀ x ∈ a, okNode S x) (hm : okNode S m) : ∀ x ∈ a ++ [m], okNode S x := by
  intro x hx
  rcases List.mem_append.mp hx with hx | hx
  · exact ha x hx
  · simp only [List.mem_singleton] at hx
    subst hx
    exact hm

theorem ok_snoc2 {S : List Nat} {a : List GNode} {m₁ m₂ : GNode}
    (ha : ∀ x ∈ a, okNode S x) (hm₁ : okNode S m₁) (hm₂ : okNode S m₂) :
    ∀ x ∈ a ++ [m₁, m₂], okNode S x := by
  intro x hx
  rcases List.mem_append.mp hx with hx | hx
  · exact ha x hx
  · rcases List.mem_cons.mp hx with rfl | hx
    · exact hm₁
    · simp only [List.mem_singleton] at hx
      subst hx
      exact hm₂

theorem figureFold_ok {S : List Nat} :
    ∀ (l acc : List GNode), (∀ n ∈ acc, okNode S n) → (∀ n ∈ l, okNode S n) →
      ∀ n ∈ figureFold acc l, okNode S n
  | [], acc, hacc, _ => by simpa [figureFold] using hacc
  | n :: ns, acc, hacc, hl => by
    have hn := hl n (List.mem_cons_self n ns)
    have hns : ∀ x ∈ ns, okNode S x := fun x hx => hl x (List.mem_cons_of_mem n hx)
    have hdrop : ∀ x ∈ acc.dropLast, okNode S x :=
      fun x hx => hacc x (List.dropLast_sublist acc |>.mem hx)
    cases n with
    | link g r ro rn u =>
      rw [figureFold]
      cases hlast : acc.getLast? with
      | none => exact figureFold_ok ns _ (ok_snoc hacc hn) hns
      | some prev =>
        have hprev := okNode_of_getLast? hlast hacc
        cases prev
        case link pg pr pro prn pu =>
          dsimp only
          split
          · split
            · exact figureFold_ok ns _ (ok_snoc hdrop hprev) hns
            · exact figureFold_ok ns _ (ok_snoc hdrop hn) hns
          · exact figureFold_ok ns _ (ok_snoc2 hdrop hn hprev) hns
        all_goals exact figureFold_ok ns _ (ok_snoc hacc hn) hns
    | paragraph g r raw =>
      rw [figureFold]
      split
      · exact figureFold_ok ns acc hacc hns
      · exact figureFold_ok ns _ (ok_snoc hacc hn) hns
    | _ =>
      exact figureFold_ok ns _ (ok_snoc hacc hn) hns

theorem figureCaptionPass_ok {S : List Nat} {cs : List GNode}
    (h : ∀ n ∈ cs, okNode S n) : ∀ n ∈ figureCaptionPass cs, okNode S n := by
  cases cs with
  | nil => exact h
  | cons c0 rest =>
    cases c0
    case link g r ro rn u =>
      rw [figureCaptionPass]
      cases hlast : ((GNode.link g r ro rn u) :: rest).getLast? with
      | none => exact h
      | some lastn =>
        cases lastn
        case paragraph pg pr praw =>
          dsimp only
          split
          · cases hdl : ((GNode.link g r ro rn u) :: rest).dropLast with
            | nil => exact h
            | cons hd tl =>
              intro n hn
              rcases List.mem_cons.mp hn with rfl | hn
              · have hc0 := h _ (List.mem_cons_self _ _)
                exact ⟨hc0.1, hc0.2⟩
              · have hmem : n ∈ ((GNode.link g r ro rn u) :: rest).dropLast := by
                  rw [hdl]
                  exact List.mem_cons_of_mem hd hn
                exact h n (List.dropLast_sublist _ |>.mem hmem)
          · exact h
        all_goals exact h
    all_goals exact h

theorem departFigure_ok {t : RstNode} {S : List Nat} (ht : t.nid ∈ S)
    {g : Nat} {raw : String} {s s' : TState} {B Δc : List GNode}
    (hnodes : s.nodes = B ++ (GNode.figure g (some t) raw []) :: Δc)
    (hB : ∀ n ∈ B, refMatches n t.nid = false)
    (hΔ : ∀ n ∈ Δc, okNode S n)
    (hrun : departFigure t s = some s') :
    (∃ Δ, s'.nodes = B ++ Δ ∧ ∀ n ∈ Δ, okNode S n) ∧ s'.skipped = s.skipped := by
  obtain ⟨⟨before, suffix⟩, hsp, hrest⟩ := Option.bind_eq_some.mp hrun
  have hm : refMatches (GNode.figure g (some t) raw []) t.nid = true :=
    refMatches_of_ref_some rfl
  rw [hnodes, splitNodes_append B Δc _ t.nid hB hm] at hsp
  injection hsp with hsp
  injection hsp with hbefore hsuffix
  subst hbefore
  subst hsuffix
  simp only [GNode.childrenOf, Option.bind_eq_bind, Option.some_bind] at hrest
  have hfold : ∀ n ∈ figureFold [] Δc, okNode S n :=
    figureFold_ok Δc [] (by simp) hΔ
  cases hcs : figureFold [] Δc with
  | nil => rw [hcs] at hrest; exact absurd hrest (by simp)
  | cons c0 crest =>
    rw [hcs] at hrest
    simp only [Option.some.injEq] at hrest
    subst hrest
    refine ⟨⟨[(GNode.figure g (some t) raw []).setChildrenDyn
      (figureCaptionPass (c0 :: crest))], rfl, ?_⟩, rfl⟩
    intro n hn
    simp only [List.mem_singleton] at hn
    subst hn
    have hpass : ∀ x ∈ figureCaptionPass (c0 :: crest), okNode S x :=
      figureCaptionPass_ok (by rw [← hcs]; exact hfold)
    exact okNode_figure_mk (refIn_of_ref_some rfl ht) hpass

theorem okNode_appendText {S : List Nat} {n n' : GNode} {t : String}
    (h : n.appendText t = some n') (hok : okNode S n) : okNode S n' :=
  okNode_of_skel_eq (appendText_skel h) hok

theorem okNode_listItem_none {S : List Nat} {g : Nat} {raw : String} :
    okNode S (.listItem g none raw) :=
  ⟨rfl, rfl⟩

theorem departListItemGo_ok {S : List Nat} :
    ∀ (rest : List GNode) (item : GNode) (s s' : TState),
      (∀ n ∈ rest, okNode S n) → okNode S item →
      departListItemGo item rest s = some s' →
      (∃ Δ, s'.nodes = s.nodes ++ Δ ∧ ∀ n ∈ Δ, okNode S n) ∧ s'.skipped = s.skipped
  | [], item, s, s', _, hitem, hrun => by
    rw [departListItemGo] at hrun
    split at hrun
    · simp only [Option.some.injEq] at hrun
      subst hrun
      exact ⟨⟨[item], rfl, fun n hn => by
        simp only [List.mem_singleton] at hn
        subst hn
        exact hitem⟩, rfl⟩
    · simp only [Option.some.injEq] at hrun
      subst hrun
      exact ⟨⟨[], by simp, by simp⟩, rfl⟩
  | n :: ns, item, s, s', hrest, hitem, hrun => by
    have hn := hrest n (List.mem_cons_self n ns)
    have hns : ∀ x ∈ ns, okNode S x := fun x hx => hrest x (List.mem_cons_of_mem n hx)
    cases n with
    | bulletList g r raw cs =>
      rw [departListItemGo] at hrun
      obtain ⟨⟨Δ, hΔeq, hΔok⟩, hsk⟩ :=
        departListItemGo_ok ns _ _ s' hns okNode_listItem_none hrun
      refine ⟨⟨[item, .bulletList g r raw cs] ++ Δ, ?_, ?_⟩, hsk⟩
      · rw [hΔeq]
        simp
      · intro x hx
        rcases List.mem_append.mp hx with hx | hx
        · rcases List.mem_cons.mp hx with rfl | hx
          · exact hitem
          · simp only [List.mem_singleton] at hx
            subst hx
            exact hn
        · exact hΔok x hx
    | enumList g r raw cs et px sx st =>
      rw [departListItemGo] at hrun
      obtain ⟨⟨Δ, hΔeq, hΔok⟩, hsk⟩ :=
        departListItemGo_ok ns _ _ s' hns okNode_listItem_none hrun
      refine ⟨⟨[item, .enumList g r raw cs et px sx st] ++ Δ, ?_, ?_⟩, hsk⟩
      · rw [hΔeq]
        simp
      · intro x hx
        rcases List.mem_append.mp hx with hx | hx
        · rcases List.mem_cons.mp hx with rfl | hx
          · exact hitem
          · simp only [List.mem_singleton] at hx
            subst hx
            exact hn
        · exact hΔok x hx
    | link g r ro rn u =>
      rw [departListItemGo] at hrun
      obtain ⟨⟨Δ, hΔeq, hΔok⟩, hsk⟩ :=
        departListItemGo_ok ns item _ s' hns hitem hrun
      refine ⟨⟨[.link g r ro rn u] ++ Δ, ?_, ?_⟩, hsk⟩
      · rw [hΔeq]
        simp
      · intro x hx
        rcases List.mem_append.mp hx with hx | hx
        · simp only [List.mem_singleton] at hx
          subst hx
          exact hn
        · exact hΔok x hx
    | linkGroup g r raw cs =>
      rw [departListItemGo] at hrun
      obtain ⟨⟨Δ, hΔeq, hΔok⟩, hsk⟩ :=
        departListItemGo_ok ns item _ s' hns hitem hrun
      refine ⟨⟨[.linkGroup g r raw cs] ++ Δ, ?_, ?_⟩, hsk⟩
      · rw [hΔeq]
        simp
      · intro x hx
        rcases List.mem_append.mp hx with hx | hx
        · simp only [List.mem_singleton] at hx
          subst hx
          exact hn
        · exact hΔok x hx
    | _ =>
      rw [departListItemGo] at hrun <;>
        try (intros; rename_i heq; exact GNode.noConfusion heq)
      split at hrun
      · obtain ⟨item1, hi1, hrun2⟩ := Option.bind_eq_some.mp hrun
        obtain ⟨r1, hr1, hrun3⟩ := Option.bind_eq_some.mp hrun2
        obtain ⟨item2, hi2, hrun4⟩ := Option.bind_eq_some.mp hrun3
        exact departListItemGo_ok ns item2 s s' hns
          (okNode_appendText hi2 (okNode_appendText hi1 hitem)) hrun4
      · obtain ⟨item1, hi1, hrun2⟩ := Option.bind_eq_some.mp hrun
        injection hi1 with hi1
        subst hi1
        obtain ⟨r1, hr1, hrun3⟩ := Option.bind_eq_some.mp hrun2
        obtain ⟨item2, hi2, hrun4⟩ := Option.bind_eq_some.mp hrun3
        exact departListItemGo_ok ns item2 s s' hns
          (okNode_appendText hi2 hitem) hrun4

theorem departListItem_ok {t : RstNode} {S : List Nat} (ht : t.nid ∈ S)
    {g : Nat} {raw : String} {s s' : TState} {B Δc : List GNode}
    (hnodes : s.nodes = B ++ (GNode.listItem g (some t) raw) :: Δc)
    (hB : ∀ n ∈ B, refMatches n t.nid = false)
    (hΔ : ∀ n ∈ Δc, okNode S n)
    (hrun : departListItem t s = some s') :
    (∃ Δ, s'.nodes = B ++ Δ ∧ ∀ n ∈ Δ, okNode S n) ∧ s'.skipped = s.skipped := by
  obtain ⟨⟨before, suffix⟩, hsp, hrest⟩ := Option.bind_eq_some.mp hrun
  have hm : refMatches (GNode.listItem g (some t) raw) t.nid = true :=
    refMatches_of_ref_some rfl
  rw [hnodes, splitNodes_append B Δc _ t.nid hB hm] at hsp
  injection hsp with hsp
  injection hsp with hbefore hsuffix
  subst hbefore
  subst hsuffix
  have href : (GNode.listItem g (some t) raw).ref = some t := rfl
  have hph : okNode S (GNode.listItem g (some t) raw) :=
    ⟨rfl, refIn_of_ref_some href ht⟩
  exact departListItemGo_ok Δc _ _ s' hΔ hph hrest

theorem departParagraph_ok {t : RstNode} {S : List Nat} (ht : t.nid ∈ S)
    {g : Nat} {raw : String} {s s' : TState} {B Δc : List GNode}
    (hnodes : s.nodes = B ++ (GNode.paragraph g (some t) raw) :: Δc)
    (hB : ∀ n ∈ B, refMatches n t.nid = false)
    (hΔ : ∀ n ∈ Δc, okNode S n)
    (hrun : departParagraph t s = some s') :
    (∃ Δ, s'.nodes = B ++ Δ ∧ ∀ n ∈ Δ, okNode S n) ∧ s'.skipped = s.skipped := by
  obtain ⟨⟨before, suffix⟩, hsp, hrest⟩ := Option.bind_eq_some.mp hrun
  have hm : refMatches (GNode.paragraph g (some t) raw) t.nid = true :=
    refMatches_of_ref_some rfl
  rw [hnodes, splitNodes_append B Δc _ t.nid hB hm] at hsp
  injection hsp with hsp
  injection hsp with hbefore hsuffix
  subst hbefore
  subst hsuffix
  have href : (GNode.paragraph g (some t) raw).ref = some t := rfl
  have hph : okNode S (GNode.paragraph g (some t) raw) :=
    ⟨rfl, refIn_of_ref_some href ht⟩
  dsimp only at hrest
  split at hrest
  · simp only [Option.some.injEq] at hrest
    subst hrest
    exact ⟨⟨Δc, rfl, hΔ⟩, rfl⟩
  · obtain ⟨r1, hr1, hrest2⟩ := Option.bind_eq_some.mp hrest
    have hkeep : ∀ n ∈ (if pyStrip r1 ≠ "" then [GNode.paragraph g (some t) raw]
        else ([] : List GNode)), okNode S n := by
      split
      · intro n hn
        simp only [List.mem_singleton] at hn
        subst hn
        exact hph
      · intro n hn
        simp at hn
    cases Δc with
    | nil =>
      injection hrest2 with hrest2
      subst hrest2
      exact ⟨⟨_, rfl, hkeep⟩, rfl⟩
    | cons d ds =>
      injection hrest2 with hrest2
      subst hrest2
      refine ⟨⟨(if pyStrip r1 ≠ "" then [GNode.paragraph g (some t) raw] else []) ++
        [.linkGroup s.nextGemId (some t) "" (d :: ds)], ?_, ?_⟩, rfl⟩
      · simp [appendFresh]
      · intro n hn
        rcases List.mem_append.mp hn with hn | hn
        · exact hkeep n hn
        · simp only [List.mem_singleton] at hn
          subst hn
          exact okNode_linkGroup_mk (refIn_of_ref_some rfl ht) hΔ

theorem departSystemMessage_ok {t : RstNode} {S : List Nat}
    {ph : GNode} {s s' : TState} {B Δc : List GNode}
    (hnodes : s.nodes = B ++ ph :: Δc)
    (hB : ∀ n ∈ B, refMatches n t.nid = false)
    (hm : refMatches ph t.nid = true)
    (hrun : departSystemMessage t s = some s') :
    (∃ Δ, s'.nodes = B ++ Δ ∧ ∀ n ∈ Δ, okNode S n) ∧ s'.skipped = s.skipped := by
  obtain ⟨⟨before, suffix⟩, hsp, hrest⟩ := Option.bind_eq_some.mp hrun
  rw [hnodes, splitNodes_append B Δc _ t.nid hB hm] at hsp
  injection hsp with hsp
  injection hsp with hbefore hsuffix
  subst hbefore
  subst hsuffix
  simp only [Option.some.injEq] at hrest
  subst hrest
  exact ⟨⟨[], by simp, by simp⟩, rfl⟩

theorem departRaw_ok {t : RstNode} {S : List Nat} (ht : t.nid ∈ S)
    {g : Nat} {raw f : String} {s s' : TState} {B Δc : List GNode}
    (hnodes : s.nodes = B ++ (GNode.rawNode g (some t) raw f) :: Δc)
    (hΔ : ∀ n ∈ Δc, okNode S n)
    (hrun : departRaw t s = some s') :
    (∃ Δ, s'.nodes = B ++ Δ ∧ ∀ n ∈ Δ, okNode S n) ∧ s'.skipped = s.skipped := by
  have href : (GNode.rawNode g (some t) raw f).ref = some t := rfl
  have hph : okNode S (GNode.rawNode g (some t) raw f) :=
    ⟨rfl, refIn_of_ref_some href ht⟩
  have hsuffok : ∀ n ∈ (GNode.rawNode g (some t) raw f) :: Δc, okNode S n := by
    intro n hn
    rcases List.mem_cons.mp hn with rfl | hn
    · exact hph
    · exact hΔ n hn
  unfold departRaw at hrun
  rw [hnodes] at hrun
  rw [List.getLast?_append] at hrun
  cases hlast : ((GNode.rawNode g (some t) raw f) :: Δc).getLast? with
  | none => simp [List.getLast?] at hlast
  | some lastn =>
    rw [hlast] at hrun
    simp only [Option.or_some] at hrun
    have hlastok : okNode S lastn := okNode_of_getLast? hlast hsuffok
    cases lastn with
    | rawNode lg lr lraw lf =>
      split at hrun
      · rename_i g2 r2 raw2 f2 heq
        injection heq with h1 h2 h3 h4
        subst h1
        subst h2
        subst h3
        subst h4
        split at hrun
        · injection hrun with hrun
          subst hrun
          exact ⟨⟨_, hnodes, hsuffok⟩, rfl⟩
        · injection hrun with hrun
          subst hrun
          refine ⟨⟨((GNode.rawNode g (some t) raw f) :: Δc).dropLast, ?_, ?_⟩, rfl⟩
          · show (B ++ (GNode.rawNode g (some t) raw f) :: Δc).dropLast =
              B ++ ((GNode.rawNode g (some t) raw f) :: Δc).dropLast
            rw [List.dropLast_append_cons]
          · intro n hn
            exact hsuffok n (List.dropLast_sublist _ |>.mem hn)
      · rename_i hx
        exact (hx lg lr lraw lf rfl).elim
    | _ => exact Option.noConfusion hrun

theorem okNode_setAltDyn {S : List Nat} {n : GNode} {a : String}
    (h : okNode S n) : okNode S (n.setAltDyn a) := by
  cases n <;> exact ⟨h.1, h.2⟩

theorem departTable_ok {t : RstNode} {S : List Nat} (ht : t.nid ∈ S)
    {g : Nat} {raw alt : String} {s s' : TState} {B Δc : List GNode}
    (hnodes : s.nodes = B ++ (GNode.preformatted g (some t) raw alt) :: Δc)
    (hB : ∀ n ∈ B, refMatches n t.nid = false)
    (hrun : departTable t s = some s') :
    (∃ Δ, s'.nodes = B ++ Δ ∧ ∀ n ∈ Δ, okNode S n) ∧ s'.skipped = s.skipped := by
  obtain ⟨⟨before, suffix⟩, hsp, hrest⟩ := Option.bind_eq_some.mp hrun
  have hm : refMatches (GNode.preformatted g (some t) raw alt) t.nid = true :=
    refMatches_of_ref_some rfl
  rw [hnodes, splitNodes_append B Δc _ t.nid hB hm] at hsp
  injection hsp with hsp
  injection hsp with hbefore hsuffix
  subst hbefore
  subst hsuffix
  have href : (GNode.preformatted g (some t) raw alt).ref = some t := rfl
  have hph : okNode S (GNode.preformatted g (some t) raw alt) :=
    ⟨rfl, refIn_of_ref_some href ht⟩
  obtain ⟨⟨title, mn, mx⟩, hscan, hrest2⟩ := Option.bind_eq_some.mp hrest
  cases mn with
  | none => exact Option.noConfusion hrest2
  | some mnv =>
    obtain ⟨orig, horig, hrest3⟩ := Option.bind_eq_some.mp hrest2
    split at hrest3
    · dsimp only at hrest3
      split at hrest3
      · exact Option.noConfusion hrest3
      · obtain ⟨ph1, hph1, hrest4⟩ := Option.bind_eq_some.mp hrest3
        injection hrest4 with hrest4
        subst hrest4
        refine ⟨⟨[ph1.setAltDyn title], rfl, ?_⟩, rfl⟩
        intro n hn
        simp only [List.mem_singleton] at hn
        subst hn
        exact okNode_setAltDyn (okNode_appendText hph1 hph)
    · dsimp only at hrest3
      split at hrest3
      · exact Option.noConfusion hrest3
      · obtain ⟨ph1, hph1, hrest4⟩ := Option.bind_eq_some.mp hrest3
        injection hrest4 with hrest4
        subst hrest4
        refine ⟨⟨[ph1], rfl, ?_⟩, rfl⟩
        intro n hn
        simp only [List.mem_singleton] at hn
        subst hn
        exact okNode_appendText hph1 hph

/-! ### Tree ids and buffer avoidance -/

theorem treeIds_def (i : Nat) (tag : String) (a : Attrs) (cs : List RstNode)
    (tx : String) (ln : Nat) :
    treeIds (.mk i tag a cs tx ln) = i :: treeIdsList cs := rfl

theorem nid_mem_treeIds (t : RstNode) : t.nid ∈ treeIds t := by
  cases t
  exact List.mem_cons_self _ _

theorem treeIdsList_subset {c : RstNode} {cs : List RstNode} :
    ∀ x ∈ treeIdsList cs, x ∈ treeIdsList (c :: cs) := by
  intro x hx
  show x ∈ treeIds c ++ treeIdsList cs
  exact List.mem_append.mpr (Or.inr hx)

theorem treeIds_head_subset {c : RstNode} {cs : List RstNode} :
    ∀ x ∈ treeIds c, x ∈ treeIdsList (c :: cs) := by
  intro x hx
  show x ∈ treeIds c ++ treeIdsList cs
  exact List.mem_append.mpr (Or.inl hx)

theorem treeIdsList_subset_treeIds {i : Nat} {tag : String} {a : Attrs}
    {cs : List RstNode} {tx : String} {ln : Nat} :
    ∀ x ∈ treeIdsList cs, x ∈ treeIds (.mk i tag a cs tx ln) := by
  intro x hx
  exact List.mem_cons_of_mem i hx

/-- No node of `l` holds a top-level back-reference into `T`. -/
def avoids (l : List GNode) (T : List Nat) : Prop :=
  ∀ n ∈ l, ∀ r : RstNode, n.ref = some r → r.nid ∉ T

theorem avoids_mono {l : List GNode} {T T' : List Nat}
    (h : avoids l T) (hss : ∀ x ∈ T', x ∈ T) : avoids l T' :=
  fun n hn r hr hmem => h n hn r hr (hss _ hmem)

theorem refMatches_false_of_avoids {l : List GNode} {T : List Nat} {t : RstNode}
    (h : avoids l T) (ht : t.nid ∈ T) : ∀ n ∈ l, refMatches n t.nid = false := by
  intro n hn
  unfold refMatches
  cases hr : n.ref with
  | none => rfl
  | some r =>
    have hne : r.nid ≠ t.nid := fun he => h n hn r hr (he ▸ ht)
    simpa using hne

theorem avoids_of_skelList_eq {A B : List GNode} {T : List Nat}
    (h : skelList A = skelList B) (hB : avoids B T) : avoids A T := by
  intro n hn r hr hmem
  obtain ⟨b, hb, hsk⟩ := mem_skel_transfer h n hn
  exact hB b hb r (ref_of_skel_eq hsk ▸ hr) hmem

theorem refsOK_implies_refIn {S : List Nat} {n : GNode} (h : refsOK S n = true) :
    refIn S n = true := by
  cases n <;> simp only [refsOK, Bool.and_eq_true] at h
  all_goals first | exact h | exact h.1

theorem mem_of_refIn {T : List Nat} {n : GNode} {r : RstNode}
    (h : refIn T n = true) (hr : n.ref = some r) : r.nid ∈ T := by
  unfold refIn at h
  rw [hr] at h
  simpa using h

/-- Freshly produced nodes whose references live in `T₁` avoid any
disjoint `T₂`. -/
theorem avoids_of_ok {Δ : List GNode} {T₁ T₂ : List Nat}
    (h : ∀ n ∈ Δ, okNode T₁ n) (hdisj : ∀ x ∈ T₁, x ∉ T₂) : avoids Δ T₂ := by
  intro n hn r hr hmem
  exact hdisj _ (mem_of_refIn (refsOK_implies_refIn (h n hn).2) hr) hmem

theorem avoids_append {A B : List GNode} {T : List Nat}
    (hA : avoids A T) (hB : avoids B T) : avoids (A ++ B) T := by
  intro n hn
  rcases List.mem_append.mp hn with hn | hn
  · exact hA n hn
  · exact hB n hn

theorem avoids_singleton {n : GNode} {T : List Nat} {t : RstNode}
    (hr : n.ref = some t) (h : t.nid ∉ T) : avoids [n] T := by
  intro m hm r hrm hmem
  simp only [List.mem_singleton] at hm
  subst hm
  rw [hr] at hrm
  injection hrm with hrm
  subst hrm
  exact h hmem

/-- After the children of an open construct are processed, the buffer is
the (text-mutated) old prefix, the (text-mutated) placeholder, and the
freshly produced nodes. -/
theorem decompose_children_buffer {S' : List Nat} {base : List GNode} {ph0 : GNode}
    {N : List GNode} (h : BufExt S' (base ++ [ph0]) N) :
    ∃ B' ph' Δc, N = B' ++ ph' :: Δc ∧ skelList B' = skelList base ∧
      skel ph' = skel ph0 ∧ ∀ n ∈ Δc, okNode S' n := by
  obtain ⟨P, Δ, rfl, hP, hΔ⟩ := h
  rw [skelList_append] at hP
  have e1 : skelList (P.take base.length) = skelList base := by
    rw [skelList_take, hP, List.take_left' (skelList_length base)]
  have e2 : skelList (P.drop base.length) = skelList [ph0] := by
    rw [skelList_drop, hP, List.drop_left' (skelList_length base)]
  have hdrop : ∃ ph', P.drop base.length = [ph'] ∧ skel ph' = skel ph0 := by
    cases hd : P.drop base.length with
    | nil => rw [hd] at e2; exact absurd e2.symm (by simp [skelList])
    | cons x xs =>
      rw [hd] at e2
      cases xs with
      | nil =>
        refine ⟨x, rfl, ?_⟩
        simp only [skelList] at e2
        injection e2
      | cons y ys => simp [skelList] at e2
  obtain ⟨ph', hd, hsk⟩ := hdrop
  refine ⟨P.take base.length, ph', Δ, ?_, e1, hsk, hΔ⟩
  conv_lhs => rw [← List.take_append_drop base.length P]
  rw [hd]
  simp

/-! ### Shapes of the fallible visit handlers -/

theorem visitImage_shape {t : RstNode} {s s₁ : TState}
    (h : visitImage t s = some s₁) :
    ∃ ph : GNode, s₁.nodes = s.nodes ++ [ph] ∧ ph.ref = some t ∧
      ph.childrenOf = none ∧ ph.isSysMessageNode = false ∧
      s₁.skipped = s.skipped := by
  obtain ⟨u, hu, h2⟩ := Option.bind_eq_some.mp h
  injection h2 with h2
  subst h2
  exact ⟨_, rfl, rfl, rfl, rfl, rfl⟩

theorem visitReference_shape {t : RstNode} {s s₁ : TState}
    (h : visitReference t s = some s₁) :
    ∃ ph : GNode, s₁.nodes = s.nodes ++ [ph] ∧ ph.ref = some t ∧
      ph.childrenOf = none ∧ ph.isSysMessageNode = false ∧
      s₁.skipped = s.skipped := by
  obtain ⟨txt0, htxt, h2⟩ := Option.bind_eq_some.mp h
  injection h2 with h2
  subst h2
  exact ⟨_, rfl, rfl, rfl, rfl, rfl⟩

theorem visitEnumeratedList_shape {t : RstNode} {s s₁ : TState}
    (h : visitEnumeratedList t s = some s₁) :
    ∃ et px sx st, s₁ = { appendFresh s
      (fun g => .enumList g (some t) "" [] et px sx st) with current := none } := by
  obtain ⟨et, het, h2⟩ := Option.bind_eq_some.mp h
  obtain ⟨px, hpx, h3⟩ := Option.bind_eq_some.mp h2
  obtain ⟨sx, hsx, h4⟩ := Option.bind_eq_some.mp h3
  injection h4 with h4
  exact ⟨et, px, sx, _, h4.symm⟩

theorem visitSystemMessage_shape {t : RstNode} {s s₁ : TState}
    (h : visitSystemMessage t s = some s₁) :
    ∃ lv src ln ty, s₁ = { appendFresh s
      (fun g => .sysMessage g (some t) "" [] lv src ln ty) with current := none } := by
  obtain ⟨lv, hlv, h2⟩ := Option.bind_eq_some.mp h
  obtain ⟨ln, hln, h3⟩ := Option.bind_eq_some.mp h2
  obtain ⟨src, hsrc, h4⟩ := Option.bind_eq_some.mp h3
  obtain ⟨ty, hty, h5⟩ := Option.bind_eq_some.mp h4
  injection h5 with h5
  exact ⟨lv, src, ln, ty, h5.symm⟩

theorem visitRaw_shape {t : RstNode} {s s₁ : TState}
    (h : visitRaw t s = some s₁) :
    ∃ f, s₁ = appendFreshCurrent s (fun g => .rawNode g (some t) "" f) := by
  obtain ⟨f, hf, h2⟩ := Option.bind_eq_some.mp h
  injection h2 with h2
  exact ⟨f, h2.symm⟩

theorem visitText_shape {t : RstNode} {s s₁ : TState}
    (h : visitText t s = some s₁) :
    skelList s₁.nodes = skelList s.nodes ∧ s₁.skipped = s.skipped := by
  unfold visitText at h
  cases hc : s.current with
  | none => rw [hc] at h; exact Option.noConfusion h
  | some gid =>
    rw [hc] at h
    obtain ⟨ns, hns, h2⟩ := Option.bind_eq_some.mp h
    injection h2 with h2
    subst h2
    exact ⟨mutForest_skel _ _ _ _ hns, rfl⟩

/-! ### The skip mechanism swallows whole subtrees -/

theorem dispatchVisit_skip {t : RstNode} {s : TState} {k : Nat}
    (hsk : s.skipped = some k) : dispatchVisit t s = some s := by
  unfold dispatchVisit
  rw [hsk]
  rfl

theorem dispatchDeparture_skip {t : RstNode} {s : TState} {k : Nat}
    (hsk : s.skipped = some k) (hne : k ≠ t.nid) : dispatchDeparture t s = some s := by
  unfold dispatchDeparture
  rw [hsk]
  simp [hne]

mutual
/-- While a skip is active, walking any subtree that does not contain the
skip marker leaves the state untouched. -/
theorem walkNode_skip : ∀ (t : RstNode) (s : TState) (k : Nat),
    s.skipped = some k → k ∉ treeIds t → walkNode t s = some s
  | .mk i tag a cs tx ln, s, k => by
    intro hsk hk
    have hki : k ≠ i := fun he => hk (he ▸ List.mem_cons_self _ _)
    have hkcs : k ∉ treeIdsList cs := fun hx => hk (List.mem_cons_of_mem _ hx)
    rw [walkNode, dispatchVisit_skip hsk]
    simp only [Option.bind_eq_bind, Option.some_bind]
    rw [walkList_skip cs s k hsk hkcs]
    simp only [Option.some_bind]
    exact dispatchDeparture_skip hsk hki

theorem walkList_skip : ∀ (l : List RstNode) (s : TState) (k : Nat),
    s.skipped = some k → k ∉ treeIdsList l → walkList l s = some s
  | [], _, _ => fun _ _ => rfl
  | c :: cs, s, k => by
    intro hsk hk
    have hkc : k ∉ treeIds c := fun hx => hk (treeIds_head_subset _ hx)
    have hkcs : k ∉ treeIdsList cs := fun hx => hk (treeIdsList_subset _ hx)
    rw [walkList, walkNode_skip c s k hsk hkc]
    simp only [Option.bind_eq_bind, Option.some_bind]
    exact walkList_skip cs s k hsk hkcs
end

/-! ### Dispatch without an active skip -/

theorem dispatchVisit_noskip {t : RstNode} {s : TState} (hsk : s.skipped = none) :
    dispatchVisit t s =
      if SKIPPED_NODES.contains t.tagname then some { s with skipped := some t.nid }
      else if NOP_NODES.contains t.tagname then some s
      else visitByTag t s := by
  unfold dispatchVisit
  rw [hsk]
  rfl

theorem dispatchDeparture_noskip {t : RstNode} {s : TState} (hsk : s.skipped = none) :
    dispatchDeparture t s =
      if NOP_NODES.contains t.tagname then some s else departByTag t s := by
  unfold dispatchDeparture
  rw [hsk]

theorem avoids_snoc {l : List GNode} {n : GNode} {T : List Nat} {t : RstNode}
    (hl : avoids l T) (hr : n.ref = some t) (ht : t.nid ∉ T) : avoids (l ++ [n]) T :=
  avoids_append hl (avoids_singleton hr ht)

/-- The common middle step of a construct with an open/close placeholder:
after the children are processed, the buffer decomposes into a prefix
skeleton-equal to the original one (hence marker-free), the placeholder
with only its raw text possibly mutated, and invariant-satisfying new
nodes. -/
theorem split_tag_step {i : Nat} {cs : List RstNode} {s s₂ : TState} {ph0 : GNode}
    (hav : avoids s.nodes (i :: treeIdsList cs))
    (hbe : BufExt (treeIdsList cs) (s.nodes ++ [ph0]) s₂.nodes) :
    ∃ B' ph' Δc, s₂.nodes = B' ++ ph' :: Δc ∧ skelList B' = skelList s.nodes ∧
      skel ph' = skel ph0 ∧
      (∀ n ∈ B', refMatches n i = false) ∧
      (∀ n ∈ Δc, okNode (i :: treeIdsList cs) n) := by
  obtain ⟨B', ph', Δc, h1, h2, h3, h4⟩ := decompose_children_buffer hbe
  refine ⟨B', ph', Δc, h1, h2, h3, ?_, ?_⟩
  · exact refMatches_false_of_avoids (t := .mk i "" {} [] "" 0)
      (avoids_of_skelList_eq h2 hav) (List.mem_cons_self _ _)
  · exact fun n hn =>
      okNode_mono (fun x hx => List.mem_cons_of_mem i hx) (h4 n hn)

/-- Package a handler's invariant result into the traversal invariant. -/
theorem conclude_step {S : List Nat} {s s₂ sf : TState} {B' : List GNode}
    (hBskel : skelList B' = skelList s.nodes)
    (hres : (∃ Δ, sf.nodes = B' ++ Δ ∧ ∀ n ∈ Δ, okNode S n) ∧
      sf.skipped = s₂.skipped)
    (hsk2 : s₂.skipped = none) :
    BufExt S s.nodes sf.nodes ∧ sf.skipped = none := by
  obtain ⟨⟨Δ, hΔeq, hΔok⟩, hskd⟩ := hres
  exact ⟨⟨B', Δ, hΔeq, hBskel, hΔok⟩, by rw [hskd, hsk2]⟩

theorem avoids_of_BufExt {S T : List Nat} {old new : List GNode}
    (h : BufExt S old new) (hold : avoids old T) (hdisj : ∀ x ∈ S, x ∉ T) :
    avoids new T := by
  obtain ⟨B, Δ, rfl, hB, hΔ⟩ := h
  exact avoids_append (avoids_of_skelList_eq hB hold) (avoids_of_ok hΔ hdisj)

mutual
/-- Walking one (sub)tree with distinct node ids, starting from a state
with no active skip whose buffer holds no back-reference into the
subtree, extends the buffer: the old entries survive up to raw-text
mutation and every new entry satisfies the structural invariant (no
`SystemMessage` anywhere, all back-references into the subtree). -/
theorem walkNode_ok : ∀ (t : RstNode) (s sf : TState),
    s.skipped = none → (treeIds t).Nodup → avoids s.nodes (treeIds t) →
    walkNode t s = some sf →
    BufExt (treeIds t) s.nodes sf.nodes ∧ sf.skipped = none
  | .mk i tag a cs tx ln, s, sf => by
    intro hsk hnd hav hrun
    rw [treeIds_def] at hnd hav ⊢
    rw [List.nodup_cons] at hnd
    obtain ⟨hi_not, hcsnd⟩ := hnd
    have sub : ∀ x ∈ treeIdsList cs, x ∈ i :: treeIdsList cs :=
      fun x hx => List.mem_cons_of_mem i hx
    rw [walkNode] at hrun
    obtain ⟨s₁, hv, hrun2⟩ := Option.bind_eq_some.mp hrun
    obtain ⟨s₂, hw, hd⟩ := Option.bind_eq_some.mp hrun2
    rw [dispatchVisit_noskip hsk] at hv
    simp only [RstNode.tagname, RstNode.nid] at hv
    by_cases hskip : SKIPPED_NODES.contains tag = true
    · rw [if_pos hskip] at hv
      injection hv with hv
      subst hv
      rw [walkList_skip cs { s with skipped := some i } i rfl hi_not] at hw
      injection hw with hw
      subst hw
      have hd2 : some (if (i == i) = true
          then ({ { s with skipped := some i } with skipped := none } : TState)
          else { s with skipped := some i }) = some sf := hd
      rw [if_pos (beq_self_eq_true i)] at hd2
      injection hd2 with hd2
      subst hd2
      exact ⟨BufExt.refl _ _, rfl⟩
    rw [if_neg hskip] at hv
    by_cases hnop : NOP_NODES.contains tag = true
    · rw [if_pos hnop] at hv
      injection hv with hv
      rw [← hv] at hw
      obtain ⟨hbe, hsk2⟩ := walkList_ok cs s s₂ hsk hcsnd (avoids_mono hav sub) hw
      rw [dispatchDeparture_noskip hsk2] at hd
      simp only [RstNode.tagname] at hd
      rw [if_pos hnop] at hd
      injection hd with hd
      subst hd
      exact ⟨BufExt.mono hbe sub, hsk2⟩
    rw [if_neg hnop] at hv
    by_cases hadm : tag = "admonition"
    · subst hadm
      have hv2 : some (visitAdmonition (.mk i "admonition" a cs tx ln) none s) = some s₁ := hv
      injection hv2 with hv2
      have hn1 : s₁.nodes = s.nodes ++ [GNode.admonition s.nextGemId (some (.mk i "admonition" a cs tx ln)) "" [] none none] := by rw [← hv2]; rfl
      have hs1 : s₁.skipped = none := by rw [← hv2]; exact hsk
      have hav1 : avoids s₁.nodes (treeIdsList cs) := by
        rw [hn1]
        exact avoids_snoc (avoids_mono hav sub) rfl hi_not
      obtain ⟨hbe, hsk2⟩ := walkList_ok cs s₁ s₂ hs1 hcsnd hav1 hw
      rw [hn1] at hbe
      obtain ⟨B2, ph2, Δc, hdec, hBskel, hphskel, hBref, hΔok⟩ := split_tag_step hav hbe
      have hphskel2 : skel ph2 = GNode.admonition s.nextGemId (some (.mk i "admonition" a cs tx ln)) "" [] none none := by rw [hphskel]; rfl
      obtain ⟨raw2, hph2⟩ := skel_admonition_inv hphskel2
      subst hph2
      rw [dispatchDeparture_noskip hsk2] at hd
      have hd2 : departAdmonition (.mk i "admonition" a cs tx ln) s₂ = some sf := hd
      exact conclude_step hBskel
        (departAdmonition_ok (t := (.mk i "admonition" a cs tx ln)) (List.mem_cons_self i (treeIdsList cs)) hdec hBref hΔok hd2) hsk2
    by_cases hatt : tag = "attention"
    · subst hatt
      have hv2 : some (visitAdmonition (.mk i "attention" a cs tx ln) (some "attention") s) = some s₁ := hv
      injection hv2 with hv2
      have hn1 : s₁.nodes = s.nodes ++ [GNode.admonition s.nextGemId (some (.mk i "attention" a cs tx ln)) "" [] (some "attention") none] := by rw [← hv2]; rfl
      have hs1 : s₁.skipped = none := by rw [← hv2]; exact hsk
      have hav1 : avoids s₁.nodes (treeIdsList cs) := by
        rw [hn1]
        exact avoids_snoc (avoids_mono hav sub) rfl hi_not
      obtain ⟨hbe, hsk2⟩ := walkList_ok cs s₁ s₂ hs1 hcsnd hav1 hw
      rw [hn1] at hbe
      obtain ⟨B2, ph2, Δc, hdec, hBskel, hphskel, hBref, hΔok⟩ := split_tag_step hav hbe
      have hphskel2 : skel ph2 = GNode.admonition s.nextGemId (some (.mk i "attention" a cs tx ln)) "" [] (some "attention") none := by rw [hphskel]; rfl
      obtain ⟨raw2, hph2⟩ := skel_admonition_inv hphskel2
      subst hph2
      rw [dispatchDeparture_noskip hsk2] at hd
      have hd2 : departAdmonition (.mk i "attention" a cs tx ln) s₂ = some sf := hd
      exact conclude_step hBskel
        (departAdmonition_ok (t := (.mk i "attention" a cs tx ln)) (List.mem_cons_self i (treeIdsList cs)) hdec hBref hΔok hd2) hsk2
    by_cases hbq : tag = "block_quote"
    · subst hbq
      have hv2 : some (visitBlockQuote (.mk i "block_quote" a cs tx ln) s) = some s₁ := hv
      injection hv2 with hv2
      have hn1 : s₁.nodes = s.nodes ++ [GNode.blockQuote s.nextGemId (some (.mk i "block_quote" a cs tx ln)) "" []] := by rw [← hv2]; rfl
      have hs1 : s₁.skipped = none := by rw [← hv2]; exact hsk
      have hav1 : avoids s₁.nodes (treeIdsList cs) := by
        rw [hn1]
        exact avoids_snoc (avoids_mono hav sub) rfl hi_not
      obtain ⟨hbe, hsk2⟩ := walkList_ok cs s₁ s₂ hs1 hcsnd hav1 hw
      rw [hn1] at hbe
      obtain ⟨B2, ph2, Δc, hdec, hBskel, hphskel, hBref, hΔok⟩ := split_tag_step hav hbe
      have hphskel2 : skel ph2 = GNode.blockQuote s.nextGemId (some (.mk i "block_quote" a cs tx ln)) "" [] := by rw [hphskel]; rfl
      obtain ⟨raw2, hph2⟩ := skel_blockQuote_inv hphskel2
      subst hph2
      rw [dispatchDeparture_noskip hsk2] at hd
      have hd2 : departBlockQuote (.mk i "block_quote" a cs tx ln) s₂ = some sf := hd
      exact conclude_step hBskel
        (departBlockQuote_ok (t := (.mk i "block_quote" a cs tx ln)) (List.mem_cons_self i (treeIdsList cs)) hdec hBref hΔok hd2) hsk2
    by_cases hbl : tag = "bullet_list"
    · subst hbl
      have hv2 : some (visitBulletList (.mk i "bullet_list" a cs tx ln) s) = some s₁ := hv
      injection hv2 with hv2
      have hn1 : s₁.nodes = s.nodes ++ [GNode.bulletList s.nextGemId (some (.mk i "bullet_list" a cs tx ln)) "" []] := by rw [← hv2]; rfl
      have hs1 : s₁.skipped = none := by rw [← hv2]; exact hsk
      have hav1 : avoids s₁.nodes (treeIdsList cs) := by
        rw [hn1]
        exact avoids_snoc (avoids_mono hav sub) rfl hi_not
      obtain ⟨hbe, hsk2⟩ := walkList_ok cs s₁ s₂ hs1 hcsnd hav1 hw
      rw [hn1] at hbe
      obtain ⟨B2, ph2, Δc, hdec, hBskel, hphskel, hBref, hΔok⟩ := split_tag_step hav hbe
      have hphskel2 : skel ph2 = GNode.bulletList s.nextGemId (some (.mk i "bullet_list" a cs tx ln)) "" [] := by rw [hphskel]; rfl
      obtain ⟨raw2, hph2⟩ := skel_bulletList_inv hphskel2
      subst hph2
      rw [dispatchDeparture_noskip hsk2] at hd
      have hd2 : departBulletList (.mk i "bullet_list" a cs tx ln) s₂ = some sf := hd
      exact conclude_step hBskel
        (departBulletList_ok (t := (.mk i "bullet_list" a cs tx ln)) (List.mem_cons_self i (treeIdsList cs)) (Or.inl rfl) hdec hBref hΔok hd2) hsk2
    by_cases hcap : tag = "caption"
    · subst hcap
      have hv2 : some (visitParagraph (.mk i "caption" a cs tx ln) s) = some s₁ := hv
      injection hv2 with hv2
      have hn1 : s₁.nodes = s.nodes ++ [GNode.paragraph s.nextGemId (some (.mk i "caption" a cs tx ln)) ""] := by rw [← hv2]; rfl
      have hs1 : s₁.skipped = none := by rw [← hv2]; exact hsk
      have hav1 : avoids s₁.nodes (treeIdsList cs) := by
        rw [hn1]
        exact avoids_snoc (avoids_mono hav sub) rfl hi_not
      obtain ⟨hbe, hsk2⟩ := walkList_ok cs s₁ s₂ hs1 hcsnd hav1 hw
      rw [hn1] at hbe
      obtain ⟨B2, ph2, Δc, hdec, hBskel, hphskel, hBref, hΔok⟩ := split_tag_step hav hbe
      have hphskel2 : skel ph2 = GNode.paragraph s.nextGemId (some (.mk i "caption" a cs tx ln)) "" := by rw [hphskel]; rfl
      obtain ⟨raw2, hph2⟩ := skel_paragraph_inv hphskel2
      subst hph2
      rw [dispatchDeparture_noskip hsk2] at hd
      have hd2 : departParagraph (.mk i "caption" a cs tx ln) s₂ = some sf := hd
      exact conclude_step hBskel
        (departParagraph_ok (t := (.mk i "caption" a cs tx ln)) (List.mem_cons_self i (treeIdsList cs)) hdec hBref hΔok hd2) hsk2
    by_cases hcau : tag = "caution"
    · subst hcau
      have hv2 : some (visitAdmonition (.mk i "caution" a cs tx ln) (some "caution") s) = some s₁ := hv
      injection hv2 with hv2
      have hn1 : s₁.nodes = s.nodes ++ [GNode.admonition s.nextGemId (some (.mk i "caution" a cs tx ln)) "" [] (some "caution") none] := by rw [← hv2]; rfl
      have hs1 : s₁.skipped = none := by rw [← hv2]; exact hsk
      have hav1 : avoids s₁.nodes (treeIdsList cs) := by
        rw [hn1]
        exact avoids_snoc (avoids_mono hav sub) rfl hi_not
      obtain ⟨hbe, hsk2⟩ := walkList_ok cs s₁ s₂ hs1 hcsnd hav1 hw
      rw [hn1] at hbe
      obtain ⟨B2, ph2, Δc, hdec, hBskel, hphskel, hBref, hΔok⟩ := split_tag_step hav hbe
      have hphskel2 : skel ph2 = GNode.admonition s.nextGemId (some (.mk i "caution" a cs tx ln)) "" [] (some "caution") none := by rw [hphskel]; rfl
      obtain ⟨raw2, hph2⟩ := skel_admonition_inv hphskel2
      subst hph2
      rw [dispatchDeparture_noskip hsk2] at hd
      have hd2 : departAdmonition (.mk i "caution" a cs tx ln) s₂ = some sf := hd
      exact conclude_step hBskel
        (departAdmonition_ok (t := (.mk i "caution" a cs tx ln)) (List.mem_cons_self i (treeIdsList cs)) hdec hBref hΔok hd2) hsk2
    by_cases hdan : tag = "danger"
    · subst hdan
      have hv2 : some (visitAdmonition (.mk i "danger" a cs tx ln) (some "danger") s) = some s₁ := hv
      injection hv2 with hv2
      have hn1 : s₁.nodes = s.nodes ++ [GNode.admonition s.nextGemId (some (.mk i "danger" a cs tx ln)) "" [] (some "danger") none] := by rw [← hv2]; rfl
      have hs1 : s₁.skipped = none := by rw [← hv2]; exact hsk
      have hav1 : avoids s₁.nodes (treeIdsList cs) := by
        rw [hn1]
        exact avoids_snoc (avoids_mono hav sub) rfl hi_not
      obtain ⟨hbe, hsk2⟩ := walkList_ok cs s₁ s₂ hs1 hcsnd hav1 hw
      rw [hn1] at hbe
      obtain ⟨B2, ph2, Δc, hdec, hBskel, hphskel, hBref, hΔok⟩ := split_tag_step hav hbe
      have hphskel2 : skel ph2 = GNode.admonition s.nextGemId (some (.mk i "danger" a cs tx ln)) "" [] (some "danger") none := by rw [hphskel]; rfl
      obtain ⟨raw2, hph2⟩ := skel_admonition_inv hphskel2
      subst hph2
      rw [dispatchDeparture_noskip hsk2] at hd
      have hd2 : departAdmonition (.mk i "danger" a cs tx ln) s₂ = some sf := hd
      exact conclude_step hBskel
        (departAdmonition_ok (t := (.mk i "danger" a cs tx ln)) (List.mem_cons_self i (treeIdsList cs)) hdec hBref hΔok hd2) hsk2
    by_cases henu : tag = "enumerated_list"
    · subst henu
      have hv2 : visitEnumeratedList (.mk i "enumerated_list" a cs tx ln) s = some s₁ := hv
      obtain ⟨et, px, sx, st, hs1eq⟩ := visitEnumeratedList_shape hv2
      have hn1 : s₁.nodes = s.nodes ++ [GNode.enumList s.nextGemId (some (.mk i "enumerated_list" a cs tx ln)) "" [] et px sx st] := by rw [hs1eq]; rfl
      have hs1 : s₁.skipped = none := by rw [hs1eq]; exact hsk
      have hav1 : avoids s₁.nodes (treeIdsList cs) := by
        rw [hn1]
        exact avoids_snoc (avoids_mono hav sub) rfl hi_not
      obtain ⟨hbe, hsk2⟩ := walkList_ok cs s₁ s₂ hs1 hcsnd hav1 hw
      rw [hn1] at hbe
      obtain ⟨B2, ph2, Δc, hdec, hBskel, hphskel, hBref, hΔok⟩ := split_tag_step hav hbe
      have hphskel2 : skel ph2 = GNode.enumList s.nextGemId (some (.mk i "enumerated_list" a cs tx ln)) "" [] et px sx st := by rw [hphskel]; rfl
      obtain ⟨raw2, hph2⟩ := skel_enumList_inv hphskel2
      subst hph2
      rw [dispatchDeparture_noskip hsk2] at hd
      have hd2 : departBulletList (.mk i "enumerated_list" a cs tx ln) s₂ = some sf := hd
      exact conclude_step hBskel
        (departBulletList_ok (t := (.mk i "enumerated_list" a cs tx ln)) (List.mem_cons_self i (treeIdsList cs))
          (Or.inr ⟨et, px, sx, st, rfl⟩) hdec hBref hΔok hd2) hsk2
    by_cases herr : tag = "error"
    · subst herr
      have hv2 : some (visitAdmonition (.mk i "error" a cs tx ln) (some "error") s) = some s₁ := hv
      injection hv2 with hv2
      have hn1 : s₁.nodes = s.nodes ++ [GNode.admonition s.nextGemId (some (.mk i "error" a cs tx ln)) "" [] (some "error") none] := by rw [← hv2]; rfl
      have hs1 : s₁.skipped = none := by rw [← hv2]; exact hsk
      have hav1 : avoids s₁.nodes (treeIdsList cs) := by
        rw [hn1]
        exact avoids_snoc (avoids_mono hav sub) rfl hi_not
      obtain ⟨hbe, hsk2⟩ := walkList_ok cs s₁ s₂ hs1 hcsnd hav1 hw
      rw [hn1] at hbe
      obtain ⟨B2, ph2, Δc, hdec, hBskel, hphskel, hBref, hΔok⟩ := split_tag_step hav hbe
      have hphskel2 : skel ph2 = GNode.admonition s.nextGemId (some (.mk i "error" a cs tx ln)) "" [] (some "error") none := by rw [hphskel]; rfl
      obtain ⟨raw2, hph2⟩ := skel_admonition_inv hphskel2
      subst hph2
      rw [dispatchDeparture_noskip hsk2] at hd
      have hd2 : departAdmonition (.mk i "error" a cs tx ln) s₂ = some sf := hd
      exact conclude_step hBskel
        (departAdmonition_ok (t := (.mk i "error" a cs tx ln)) (List.mem_cons_self i (treeIdsList cs)) hdec hBref hΔok hd2) hsk2
    by_cases hfig : tag = "figure"
    · subst hfig
      have hv2 : some (visitFigure (.mk i "figure" a cs tx ln) s) = some s₁ := hv
      injection hv2 with hv2
      have hn1 : s₁.nodes = s.nodes ++ [GNode.figure s.nextGemId (some (.mk i "figure" a cs tx ln)) "" []] := by rw [← hv2]; rfl
      have hs1 : s₁.skipped = none := by rw [← hv2]; exact hsk
      have hav1 : avoids s₁.nodes (treeIdsList cs) := by
        rw [hn1]
        exact avoids_snoc (avoids_mono hav sub) rfl hi_not
      obtain ⟨hbe, hsk2⟩ := walkList_ok cs s₁ s₂ hs1 hcsnd hav1 hw
      rw [hn1] at hbe
      obtain ⟨B2, ph2, Δc, hdec, hBskel, hphskel, hBref, hΔok⟩ := split_tag_step hav hbe
      have hphskel2 : skel ph2 = GNode.figure s.nextGemId (some (.mk i "figure" a cs tx ln)) "" [] := by rw [hphskel]; rfl
      obtain ⟨raw2, hph2⟩ := skel_figure_inv hphskel2
      subst hph2
      rw [dispatchDeparture_noskip hsk2] at hd
      have hd2 : departFigure (.mk i "figure" a cs tx ln) s₂ = some sf := hd
      exact conclude_step hBskel
        (departFigure_ok (t := (.mk i "figure" a cs tx ln)) (List.mem_cons_self i (treeIdsList cs)) hdec hBref hΔok hd2) hsk2
    by_cases hhin : tag = "hint"
    · subst hhin
      have hv2 : some (visitAdmonition (.mk i "hint" a cs tx ln) (some "hint") s) = some s₁ := hv
      injection hv2 with hv2
      have hn1 : s₁.nodes = s.nodes ++ [GNode.admonition s.nextGemId (some (.mk i "hint" a cs tx ln)) "" [] (some "hint") none] := by rw [← hv2]; rfl
      have hs1 : s₁.skipped = none := by rw [← hv2]; exact hsk
      have hav1 : avoids s₁.nodes (treeIdsList cs) := by
        rw [hn1]
        exact avoids_snoc (avoids_mono hav sub) rfl hi_not
      obtain ⟨hbe, hsk2⟩ := walkList_ok cs s₁ s₂ hs1 hcsnd hav1 hw
      rw [hn1] at hbe
      obtain ⟨B2, ph2, Δc, hdec, hBskel, hphskel, hBref, hΔok⟩ := split_tag_step hav hbe
      have hphskel2 : skel ph2 = GNode.admonition s.nextGemId (some (.mk i "hint" a cs tx ln)) "" [] (some "hint") none := by rw [hphskel]; rfl
      obtain ⟨raw2, hph2⟩ := skel_admonition_inv hphskel2
      subst hph2
      rw [dispatchDeparture_noskip hsk2] at hd
      have hd2 : departAdmonition (.mk i "hint" a cs tx ln) s₂ = some sf := hd
      exact conclude_step hBskel
        (departAdmonition_ok (t := (.mk i "hint" a cs tx ln)) (List.mem_cons_self i (treeIdsList cs)) hdec hBref hΔok hd2) hsk2
    by_cases himg : tag = "image"
    · subst himg
      have hv2 : visitImage (.mk i "image" a cs tx ln) s = some s₁ := hv
      obtain ⟨ph0, hn1, href0, hleaf0, hnsm0, hskq⟩ := visitImage_shape hv2
      have hs1 : s₁.skipped = none := hskq.trans hsk
      have hav1 : avoids s₁.nodes (treeIdsList cs) := by
        rw [hn1]
        exact avoids_snoc (avoids_mono hav sub) href0 hi_not
      obtain ⟨hbe, hsk2⟩ := walkList_ok cs s₁ s₂ hs1 hcsnd hav1 hw
      rw [hn1] at hbe
      obtain ⟨B2, ph2, Δc, hdec, hBskel, hphskel, hBref, hΔok⟩ := split_tag_step hav hbe
      have hphok : okNode (i :: treeIdsList cs) ph2 :=
        okNode_of_skel_eq hphskel (okNode_leaf hleaf0 hnsm0
          (refIn_of_ref_some href0 (List.mem_cons_self i (treeIdsList cs))))
      rw [dispatchDeparture_noskip hsk2] at hd
      have hd2 : some s₂ = some sf := hd
      injection hd2 with hd2
      subst hd2
      refine ⟨⟨B2, ph2 :: Δc, hdec, hBskel, ?_⟩, hsk2⟩
      intro n hn
      rcases List.mem_cons.mp hn with rfl | hn
      · exact hphok
      · exact hΔok n hn
    by_cases himp : tag = "important"
    · subst himp
      have hv2 : some (visitAdmonition (.mk i "important" a cs tx ln) (some "important") s) = some s₁ := hv
      injection hv2 with hv2
      have hn1 : s₁.nodes = s.nodes ++ [GNode.admonition s.nextGemId (some (.mk i "important" a cs tx ln)) "" [] (some "important") none] := by rw [← hv2]; rfl
      have hs1 : s₁.skipped = none := by rw [← hv2]; exact hsk
      have hav1 : avoids s₁.nodes (treeIdsList cs) := by
        rw [hn1]
        exact avoids_snoc (avoids_mono hav sub) rfl hi_not
      obtain ⟨hbe, hsk2⟩ := walkList_ok cs s₁ s₂ hs1 hcsnd hav1 hw
      rw [hn1] at hbe
      obtain ⟨B2, ph2, Δc, hdec, hBskel, hphskel, hBref, hΔok⟩ := split_tag_step hav hbe
      have hphskel2 : skel ph2 = GNode.admonition s.nextGemId (some (.mk i "important" a cs tx ln)) "" [] (some "important") none := by rw [hphskel]; rfl
      obtain ⟨raw2, hph2⟩ := skel_admonition_inv hphskel2
      subst hph2
      rw [dispatchDeparture_noskip hsk2] at hd
      have hd2 : departAdmonition (.mk i "important" a cs tx ln) s₂ = some sf := hd
      exact conclude_step hBskel
        (departAdmonition_ok (t := (.mk i "important" a cs tx ln)) (List.mem_cons_self i (treeIdsList cs)) hdec hBref hΔok hd2) hsk2
    by_cases hli : tag = "list_item"
    · subst hli
      have hv2 : some (visitListItem (.mk i "list_item" a cs tx ln) s) = some s₁ := hv
      injection hv2 with hv2
      have hn1 : s₁.nodes = s.nodes ++ [GNode.listItem s.nextGemId (some (.mk i "list_item" a cs tx ln)) ""] := by rw [← hv2]; rfl
      have hs1 : s₁.skipped = none := by rw [← hv2]; exact hsk
      have hav1 : avoids s₁.nodes (treeIdsList cs) := by
        rw [hn1]
        exact avoids_snoc (avoids_mono hav sub) rfl hi_not
      obtain ⟨hbe, hsk2⟩ := walkList_ok cs s₁ s₂ hs1 hcsnd hav1 hw
      rw [hn1] at hbe
      obtain ⟨B2, ph2, Δc, hdec, hBskel, hphskel, hBref, hΔok⟩ := split_tag_step hav hbe
      have hphskel2 : skel ph2 = GNode.listItem s.nextGemId (some (.mk i "list_item" a cs tx ln)) "" := by rw [hphskel]; rfl
      obtain ⟨raw2, hph2⟩ := skel_listItem_inv hphskel2
      subst hph2
      rw [dispatchDeparture_noskip hsk2] at hd
      have hd2 : departListItem (.mk i "list_item" a cs tx ln) s₂ = some sf := hd
      exact conclude_step hBskel
        (departListItem_ok (t := (.mk i "list_item" a cs tx ln)) (List.mem_cons_self i (treeIdsList cs)) hdec hBref hΔok hd2) hsk2
    by_cases hlb : tag = "literal_block"
    · subst hlb
      have hv2 : some (visitLiteralBlock (.mk i "literal_block" a cs tx ln) s) = some s₁ := hv
      injection hv2 with hv2
      have hn1 : s₁.nodes = s.nodes ++ [GNode.preformatted s.nextGemId (some (.mk i "literal_block" a cs tx ln)) "" (firstNonCodeClass a.classes)] := by rw [← hv2]; rfl
      have href0 : (GNode.preformatted s.nextGemId (some (.mk i "literal_block" a cs tx ln)) "" (firstNonCodeClass a.classes)).ref = some (.mk i "literal_block" a cs tx ln) := rfl
      have hleaf0 : (GNode.preformatted s.nextGemId (some (.mk i "literal_block" a cs tx ln)) "" (firstNonCodeClass a.classes)).childrenOf = none := rfl
      have hnsm0 : (GNode.preformatted s.nextGemId (some (.mk i "literal_block" a cs tx ln)) "" (firstNonCodeClass a.classes)).isSysMessageNode = false := rfl
      have hs1 : s₁.skipped = none := by rw [← hv2]; exact hsk
      have hav1 : avoids s₁.nodes (treeIdsList cs) := by
        rw [hn1]
        exact avoids_snoc (avoids_mono hav sub) href0 hi_not
      obtain ⟨hbe, hsk2⟩ := walkList_ok cs s₁ s₂ hs1 hcsnd hav1 hw
      rw [hn1] at hbe
      obtain ⟨B2, ph2, Δc, hdec, hBskel, hphskel, hBref, hΔok⟩ := split_tag_step hav hbe
      have hphok : okNode (i :: treeIdsList cs) ph2 :=
        okNode_of_skel_eq hphskel (okNode_leaf hleaf0 hnsm0
          (refIn_of_ref_some href0 (List.mem_cons_self i (treeIdsList cs))))
      rw [dispatchDeparture_noskip hsk2] at hd
      have hd2 : some s₂ = some sf := hd
      injection hd2 with hd2
      subst hd2
      refine ⟨⟨B2, ph2 :: Δc, hdec, hBskel, ?_⟩, hsk2⟩
      intro n hn
      rcases List.mem_cons.mp hn with rfl | hn
      · exact hphok
      · exact hΔok n hn
    by_cases hnote : tag = "note"
    · subst hnote
      have hv2 : some (visitAdmonition (.mk i "note" a cs tx ln) (some "note") s) = some s₁ := hv
      injection hv2 with hv2
      have hn1 : s₁.nodes = s.nodes ++ [GNode.admonition s.nextGemId (some (.mk i "note" a cs tx ln)) "" [] (some "note") none] := by rw [← hv2]; rfl
      have hs1 : s₁.skipped = none := by rw [← hv2]; exact hsk
      have hav1 : avoids s₁.nodes (treeIdsList cs) := by
        rw [hn1]
        exact avoids_snoc (avoids_mono hav sub) rfl hi_not
      obtain ⟨hbe, hsk2⟩ := walkList_ok cs s₁ s₂ hs1 hcsnd hav1 hw
      rw [hn1] at hbe
      obtain ⟨B2, ph2, Δc, hdec, hBskel, hphskel, hBref, hΔok⟩ := split_tag_step hav hbe
      have hphskel2 : skel ph2 = GNode.admonition s.nextGemId (some (.mk i "note" a cs tx ln)) "" [] (some "note") none := by rw [hphskel]; rfl
      obtain ⟨raw2, hph2⟩ := skel_admonition_inv hphskel2
      subst hph2
      rw [dispatchDeparture_noskip hsk2] at hd
      have hd2 : departAdmonition (.mk i "note" a cs tx ln) s₂ = some sf := hd
      exact conclude_step hBskel
        (departAdmonition_ok (t := (.mk i "note" a cs tx ln)) (List.mem_cons_self i (treeIdsList cs)) hdec hBref hΔok hd2) hsk2
    by_cases hpar : tag = "paragraph"
    · subst hpar
      have hv2 : some (visitParagraph (.mk i "paragraph" a cs tx ln) s) = some s₁ := hv
      injection hv2 with hv2
      have hn1 : s₁.nodes = s.nodes ++ [GNode.paragraph s.nextGemId (some (.mk i "paragraph" a cs tx ln)) ""] := by rw [← hv2]; rfl
      have hs1 : s₁.skipped = none := by rw [← hv2]; exact hsk
      have hav1 : avoids s₁.nodes (treeIdsList cs) := by
        rw [hn1]
        exact avoids_snoc (avoids_mono hav sub) rfl hi_not
      obtain ⟨hbe, hsk2⟩ := walkList_ok cs s₁ s₂ hs1 hcsnd hav1 hw
      rw [hn1] at hbe
      obtain ⟨B2, ph2, Δc, hdec, hBskel, hphskel, hBref, hΔok⟩ := split_tag_step hav hbe
      have hphskel2 : skel ph2 = GNode.paragraph s.nextGemId (some (.mk i "paragraph" a cs tx ln)) "" := by rw [hphskel]; rfl
      obtain ⟨raw2, hph2⟩ := skel_paragraph_inv hphskel2
      subst hph2
      rw [dispatchDeparture_noskip hsk2] at hd
      have hd2 : departParagraph (.mk i "paragraph" a cs tx ln) s₂ = some sf := hd
      exact conclude_step hBskel
        (departParagraph_ok (t := (.mk i "paragraph" a cs tx ln)) (List.mem_cons_self i (treeIdsList cs)) hdec hBref hΔok hd2) hsk2
    by_cases hrw2 : tag = "raw"
    · subst hrw2
      have hv2 : visitRaw (.mk i "raw" a cs tx ln) s = some s₁ := hv
      obtain ⟨f, hs1eq⟩ := visitRaw_shape hv2
      have hn1 : s₁.nodes = s.nodes ++ [GNode.rawNode s.nextGemId (some (.mk i "raw" a cs tx ln)) "" f] := by rw [hs1eq]; rfl
      have hs1 : s₁.skipped = none := by rw [hs1eq]; exact hsk
      have hav1 : avoids s₁.nodes (treeIdsList cs) := by
        rw [hn1]
        exact avoids_snoc (avoids_mono hav sub) rfl hi_not
      obtain ⟨hbe, hsk2⟩ := walkList_ok cs s₁ s₂ hs1 hcsnd hav1 hw
      rw [hn1] at hbe
      obtain ⟨B2, ph2, Δc, hdec, hBskel, hphskel, hBref, hΔok⟩ := split_tag_step hav hbe
      have hphskel2 : skel ph2 = GNode.rawNode s.nextGemId (some (.mk i "raw" a cs tx ln)) "" f := by rw [hphskel]; rfl
      obtain ⟨raw2, hph2⟩ := skel_rawNode_inv hphskel2
      subst hph2
      rw [dispatchDeparture_noskip hsk2] at hd
      have hd2 : departRaw (.mk i "raw" a cs tx ln) s₂ = some sf := hd
      exact conclude_step hBskel
        (departRaw_ok (t := (.mk i "raw" a cs tx ln)) (List.mem_cons_self i (treeIdsList cs)) hdec hΔok hd2) hsk2
    by_cases hrefc : tag = "reference"
    · subst hrefc
      have hv2 : visitReference (.mk i "reference" a cs tx ln) s = some s₁ := hv
      obtain ⟨ph0, hn1, href0, hleaf0, hnsm0, hskq⟩ := visitReference_shape hv2
      have hs1 : s₁.skipped = none := hskq.trans hsk
      have hav1 : avoids s₁.nodes (treeIdsList cs) := by
        rw [hn1]
        exact avoids_snoc (avoids_mono hav sub) href0 hi_not
      obtain ⟨hbe, hsk2⟩ := walkList_ok cs s₁ s₂ hs1 hcsnd hav1 hw
      rw [hn1] at hbe
      obtain ⟨B2, ph2, Δc, hdec, hBskel, hphskel, hBref, hΔok⟩ := split_tag_step hav hbe
      have hphok : okNode (i :: treeIdsList cs) ph2 :=
        okNode_of_skel_eq hphskel (okNode_leaf hleaf0 hnsm0
          (refIn_of_ref_some href0 (List.mem_cons_self i (treeIdsList cs))))
      rw [dispatchDeparture_noskip hsk2] at hd
      have hd2 : some s₂ = some sf := hd
      injection hd2 with hd2
      subst hd2
      refine ⟨⟨B2, ph2 :: Δc, hdec, hBskel, ?_⟩, hsk2⟩
      intro n hn
      rcases List.mem_cons.mp hn with rfl | hn
      · exact hphok
      · exact hΔok n hn
    by_cases hsec : tag = "section"
    · subst hsec
      have hv2 : some ({ s with sectionLevel := s.sectionLevel + 1 } : TState) = some s₁ := hv
      injection hv2 with hv2
      have hn1 : s₁.nodes = s.nodes := by rw [← hv2]
      have hs1 : s₁.skipped = none := by rw [← hv2]; exact hsk
      have hav1 : avoids s₁.nodes (treeIdsList cs) := by
        rw [hn1]
        exact avoids_mono hav sub
      obtain ⟨hbe, hsk2⟩ := walkList_ok cs s₁ s₂ hs1 hcsnd hav1 hw
      rw [hn1] at hbe
      rw [dispatchDeparture_noskip hsk2] at hd
      have hd2 : some ({ s₂ with sectionLevel := s₂.sectionLevel - 1 } : TState) = some sf := hd
      injection hd2 with hd2
      refine ⟨?_, ?_⟩
      · rw [← hd2]
        exact BufExt.mono hbe sub
      · rw [← hd2]
        exact hsk2
    by_cases hsm : tag = "system_message"
    · subst hsm
      have hv2 : visitSystemMessage (.mk i "system_message" a cs tx ln) s = some s₁ := hv
      obtain ⟨lv, src, lnn, ty, hs1eq⟩ := visitSystemMessage_shape hv2
      have hn1 : s₁.nodes = s.nodes ++ [GNode.sysMessage s.nextGemId (some (.mk i "system_message" a cs tx ln)) "" [] lv src lnn ty] := by rw [hs1eq]; rfl
      have hs1 : s₁.skipped = none := by rw [hs1eq]; exact hsk
      have hav1 : avoids s₁.nodes (treeIdsList cs) := by
        rw [hn1]
        exact avoids_snoc (avoids_mono hav sub) rfl hi_not
      obtain ⟨hbe, hsk2⟩ := walkList_ok cs s₁ s₂ hs1 hcsnd hav1 hw
      rw [hn1] at hbe
      obtain ⟨B2, ph2, Δc, hdec, hBskel, hphskel, hBref, hΔok⟩ := split_tag_step hav hbe
      have hphskel2 : skel ph2 = GNode.sysMessage s.nextGemId (some (.mk i "system_message" a cs tx ln)) "" [] lv src lnn ty := by rw [hphskel]; rfl
      obtain ⟨raw2, hph2⟩ := skel_sysMessage_inv hphskel2
      subst hph2
      rw [dispatchDeparture_noskip hsk2] at hd
      have hd2 : departSystemMessage (.mk i "system_message" a cs tx ln) s₂ = some sf := hd
      have hreff : (GNode.sysMessage s.nextGemId (some (.mk i "system_message" a cs tx ln)) raw2 [] lv src lnn ty).ref = some (.mk i "system_message" a cs tx ln) := rfl
      exact conclude_step hBskel
        (departSystemMessage_ok (t := (.mk i "system_message" a cs tx ln)) (S := i :: treeIdsList cs) hdec hBref
          (refMatches_of_ref_some hreff) hd2) hsk2
    by_cases htab : tag = "table"
    · subst htab
      have hv2 : some (visitTable (.mk i "table" a cs tx ln) s) = some s₁ := hv
      injection hv2 with hv2
      have hn1 : s₁.nodes = s.nodes ++ [GNode.preformatted s.nextGemId (some (.mk i "table" a cs tx ln)) "" ""] := by rw [← hv2]; rfl
      have hs1 : s₁.skipped = none := by rw [← hv2]; exact hsk
      have hav1 : avoids s₁.nodes (treeIdsList cs) := by
        rw [hn1]
        exact avoids_snoc (avoids_mono hav sub) rfl hi_not
      obtain ⟨hbe, hsk2⟩ := walkList_ok cs s₁ s₂ hs1 hcsnd hav1 hw
      rw [hn1] at hbe
      obtain ⟨B2, ph2, Δc, hdec, hBskel, hphskel, hBref, hΔok⟩ := split_tag_step hav hbe
      have hphskel2 : skel ph2 = GNode.preformatted s.nextGemId (some (.mk i "table" a cs tx ln)) "" "" := by rw [hphskel]; rfl
      obtain ⟨raw2, hph2⟩ := skel_preformatted_inv hphskel2
      subst hph2
      rw [dispatchDeparture_noskip hsk2] at hd
      have hd2 : departTable (.mk i "table" a cs tx ln) s₂ = some sf := hd
      exact conclude_step hBskel
        (departTable_ok (t := (.mk i "table" a cs tx ln)) (List.mem_cons_self i (treeIdsList cs)) hdec hBref hd2) hsk2
    by_cases htxt : tag = "#text"
    · subst htxt
      have hv2 : visitText (.mk i "#text" a cs tx ln) s = some s₁ := hv
      obtain ⟨hskel1, hskq⟩ := visitText_shape hv2
      have hs1 : s₁.skipped = none := hskq.trans hsk
      obtain ⟨hbe, hsk2⟩ := walkList_ok cs s₁ s₂ hs1 hcsnd
        (avoids_of_skelList_eq hskel1 (avoids_mono hav sub)) hw
      rw [dispatchDeparture_noskip hsk2] at hd
      have hd2 : some s₂ = some sf := hd
      injection hd2 with hd2
      subst hd2
      exact ⟨BufExt.trans_mono (BufExt.of_skelList_eq hskel1) hbe sub sub, hsk2⟩
    by_cases htip : tag = "tip"
    · subst htip
      have hv2 : some (visitAdmonition (.mk i "tip" a cs tx ln) (some "tip") s) = some s₁ := hv
      injection hv2 with hv2
      have hn1 : s₁.nodes = s.nodes ++ [GNode.admonition s.nextGemId (some (.mk i "tip" a cs tx ln)) "" [] (some "tip") none] := by rw [← hv2]; rfl
      have hs1 : s₁.skipped = none := by rw [← hv2]; exact hsk
      have hav1 : avoids s₁.nodes (treeIdsList cs) := by
        rw [hn1]
        exact avoids_snoc (avoids_mono hav sub) rfl hi_not
      obtain ⟨hbe, hsk2⟩ := walkList_ok cs s₁ s₂ hs1 hcsnd hav1 hw
      rw [hn1] at hbe
      obtain ⟨B2, ph2, Δc, hdec, hBskel, hphskel, hBref, hΔok⟩ := split_tag_step hav hbe
      have hphskel2 : skel ph2 = GNode.admonition s.nextGemId (some (.mk i "tip" a cs tx ln)) "" [] (some "tip") none := by rw [hphskel]; rfl
      obtain ⟨raw2, hph2⟩ := skel_admonition_inv hphskel2
      subst hph2
      rw [dispatchDeparture_noskip hsk2] at hd
      have hd2 : departAdmonition (.mk i "tip" a cs tx ln) s₂ = some sf := hd
      exact conclude_step hBskel
        (departAdmonition_ok (t := (.mk i "tip" a cs tx ln)) (List.mem_cons_self i (treeIdsList cs)) hdec hBref hΔok hd2) hsk2
    by_cases htitle : tag = "title"
    · subst htitle
      have hv2 : some (visitTitle (.mk i "title" a cs tx ln) s) = some s₁ := hv
      injection hv2 with hv2
      have hn1 : s₁.nodes = s.nodes ++ [GNode.title s.nextGemId (some (.mk i "title" a cs tx ln)) "" s.sectionLevel] := by rw [← hv2]; rfl
      have href0 : (GNode.title s.nextGemId (some (.mk i "title" a cs tx ln)) "" s.sectionLevel).ref = some (.mk i "title" a cs tx ln) := rfl
      have hleaf0 : (GNode.title s.nextGemId (some (.mk i "title" a cs tx ln)) "" s.sectionLevel).childrenOf = none := rfl
      have hnsm0 : (GNode.title s.nextGemId (some (.mk i "title" a cs tx ln)) "" s.sectionLevel).isSysMessageNode = false := rfl
      have hs1 : s₁.skipped = none := by rw [← hv2]; exact hsk
      have hav1 : avoids s₁.nodes (treeIdsList cs) := by
        rw [hn1]
        exact avoids_snoc (avoids_mono hav sub) href0 hi_not
      obtain ⟨hbe, hsk2⟩ := walkList_ok cs s₁ s₂ hs1 hcsnd hav1 hw
      rw [hn1] at hbe
      obtain ⟨B2, ph2, Δc, hdec, hBskel, hphskel, hBref, hΔok⟩ := split_tag_step hav hbe
      have hphok : okNode (i :: treeIdsList cs) ph2 :=
        okNode_of_skel_eq hphskel (okNode_leaf hleaf0 hnsm0
          (refIn_of_ref_some href0 (List.mem_cons_self i (treeIdsList cs))))
      rw [dispatchDeparture_noskip hsk2] at hd
      have hd2 : some s₂ = some sf := hd
      injection hd2 with hd2
      subst hd2
      refine ⟨⟨B2, ph2 :: Δc, hdec, hBskel, ?_⟩, hsk2⟩
      intro n hn
      rcases List.mem_cons.mp hn with rfl | hn
      · exact hphok
      · exact hΔok n hn
    by_cases htrans : tag = "transition"
    · subst htrans
      have hv2 : some (visitTransition (.mk i "transition" a cs tx ln) s) = some s₁ := hv
      injection hv2 with hv2
      have hn1 : s₁.nodes = s.nodes ++ [GNode.separator s.nextGemId (some (.mk i "transition" a cs tx ln)) ""] := by rw [← hv2]; rfl
      have href0 : (GNode.separator s.nextGemId (some (.mk i "transition" a cs tx ln)) "").ref = some (.mk i "transition" a cs tx ln) := rfl
      have hleaf0 : (GNode.separator s.nextGemId (some (.mk i "transition" a cs tx ln)) "").childrenOf = none := rfl
      have hnsm0 : (GNode.separator s.nextGemId (some (.mk i "transition" a cs tx ln)) "").isSysMessageNode = false := rfl
      have hs1 : s₁.skipped = none := by rw [← hv2]; exact hsk
      have hav1 : avoids s₁.nodes (treeIdsList cs) := by
        rw [hn1]
        exact avoids_snoc (avoids_mono hav sub) href0 hi_not
      obtain ⟨hbe, hsk2⟩ := walkList_ok cs s₁ s₂ hs1 hcsnd hav1 hw
      rw [hn1] at hbe
      obtain ⟨B2, ph2, Δc, hdec, hBskel, hphskel, hBref, hΔok⟩ := split_tag_step hav hbe
      have hphok : okNode (i :: treeIdsList cs) ph2 :=
        okNode_of_skel_eq hphskel (okNode_leaf hleaf0 hnsm0
          (refIn_of_ref_some href0 (List.mem_cons_self i (treeIdsList cs))))
      rw [dispatchDeparture_noskip hsk2] at hd
      have hd2 : some s₂ = some sf := hd
      injection hd2 with hd2
      subst hd2
      refine ⟨⟨B2, ph2 :: Δc, hdec, hBskel, ?_⟩, hsk2⟩
      intro n hn
      rcases List.mem_cons.mp hn with rfl | hn
      · exact hphok
      · exact hΔok n hn
    by_cases hwarn : tag = "warning"
    · subst hwarn
      have hv2 : some (visitAdmonition (.mk i "warning" a cs tx ln) (some "warning") s) = some s₁ := hv
      injection hv2 with hv2
      have hn1 : s₁.nodes = s.nodes ++ [GNode.admonition s.nextGemId (some (.mk i "warning" a cs tx ln)) "" [] (some "warning") none] := by rw [← hv2]; rfl
      have hs1 : s₁.skipped = none := by rw [← hv2]; exact hsk
      have hav1 : avoids s₁.nodes (treeIdsList cs) := by
        rw [hn1]
        exact avoids_snoc (avoids_mono hav sub) rfl hi_not
      obtain ⟨hbe, hsk2⟩ := walkList_ok cs s₁ s₂ hs1 hcsnd hav1 hw
      rw [hn1] at hbe
      obtain ⟨B2, ph2, Δc, hdec, hBskel, hphskel, hBref, hΔok⟩ := split_tag_step hav hbe
      have hphskel2 : skel ph2 = GNode.admonition s.nextGemId (some (.mk i "warning" a cs tx ln)) "" [] (some "warning") none := by rw [hphskel]; rfl
      obtain ⟨raw2, hph2⟩ := skel_admonition_inv hphskel2
      subst hph2
      rw [dispatchDeparture_noskip hsk2] at hd
      have hd2 : departAdmonition (.mk i "warning" a cs tx ln) s₂ = some sf := hd
      exact conclude_step hBskel
        (departAdmonition_ok (t := (.mk i "warning" a cs tx ln)) (List.mem_cons_self i (treeIdsList cs)) hdec hBref hΔok hd2) hsk2
    unfold visitByTag at hv
    simp only [RstNode.tagname] at hv
    rw [if_neg hadm, if_neg hatt, if_neg hbq, if_neg hbl, if_neg hcap, if_neg hcau, if_neg hdan, if_neg henu, if_neg herr, if_neg hfig, if_neg hhin, if_neg himg, if_neg himp, if_neg hli, if_neg hlb, if_neg hnote, if_neg hpar, if_neg hrw2, if_neg hrefc, if_neg hsec, if_neg hsm, if_neg htab, if_neg htxt, if_neg htip, if_neg htitle, if_neg htrans, if_neg hwarn] at hv
    injection hv with hv
    rw [← hv] at hw
    obtain ⟨hbe, hsk2⟩ := walkList_ok cs s s₂ hsk hcsnd (avoids_mono hav sub) hw
    rw [dispatchDeparture_noskip hsk2] at hd
    simp only [RstNode.tagname] at hd
    rw [if_neg hnop] at hd
    unfold departByTag at hd
    simp only [RstNode.tagname] at hd
    rw [if_neg hadm, if_neg hatt, if_neg hbq, if_neg hbl, if_neg hcap, if_neg hcau, if_neg hdan, if_neg henu, if_neg herr, if_neg hfig, if_neg hhin, if_neg himp, if_neg hli, if_neg hnote, if_neg hpar, if_neg hrw2, if_neg hsec, if_neg hsm, if_neg htab, if_neg htip, if_neg hwarn] at hd
    injection hd with hd
    subst hd
    exact ⟨BufExt.mono hbe sub, hsk2⟩

theorem walkList_ok : ∀ (l : List RstNode) (s sf : TState),
    s.skipped = none → (treeIdsList l).Nodup → avoids s.nodes (treeIdsList l) →
    walkList l s = some sf →
    BufExt (treeIdsList l) s.nodes sf.nodes ∧ sf.skipped = none
  | [], s, sf => by
    intro hsk _ _ hrun
    rw [walkList] at hrun
    injection hrun with hrun
    subst hrun
    exact ⟨BufExt.refl _ _, hsk⟩
  | c :: cs, s, sf => by
    intro hsk hnd hav hrun
    rw [walkList] at hrun
    obtain ⟨s₁, h1, h2⟩ := Option.bind_eq_some.mp hrun
    have hnd2 : (treeIds c ++ treeIdsList cs).Nodup := hnd
    rw [List.nodup_append] at hnd2
    obtain ⟨nd1, nd2, hdisj⟩ := hnd2
    obtain ⟨hbe1, hsk1⟩ := walkNode_ok c s s₁ hsk nd1
      (avoids_mono hav treeIds_head_subset) h1
    have hav2 : avoids s₁.nodes (treeIdsList cs) :=
      avoids_of_BufExt hbe1 (avoids_mono hav treeIdsList_subset)
        (fun x hx hmem => hdisj hx hmem)
    obtain ⟨hbe2, hsk2⟩ := walkList_ok cs s₁ sf hsk1 nd2 hav2 h2
    exact ⟨BufExt.trans_mono hbe1 hbe2 treeIds_head_subset treeIdsList_subset, hsk2⟩
end

/-! ## Claim C7 -/

/-- C7: for every input document and source tree (with distinct node
identities), when the traversal succeeds the node sequence handed to the
serializer — the translator's final output buffer — contains no
`SystemMessage` node anywhere, not even nested: every `system_message`
leave event moves the node and its collected children to the separate
diagnostics list, so the serialized text never embeds diagnostics. -/
theorem c7_no_system_message :
    ∀ (d : Document) (t : RstNode) (sf : TState),
      (treeIds t).Nodup → runTranslator d t = some sf →
      ∀ n ∈ sf.nodes, noSM n = true := by
  intro d t sf hnd hrun
  unfold runTranslator at hrun
  obtain ⟨s0, hinit, hwalk⟩ := Option.bind_eq_some.mp hrun
  unfold initTranslator at hinit
  cases hsrc : d.originalRst with
  | none =>
    rw [hsrc] at hinit
    exact Option.noConfusion hinit
  | some src =>
    rw [hsrc] at hinit
    injection hinit with hinit
    subst hinit
    obtain ⟨hbe, _⟩ := walkNode_ok t ⟨d, [], [], none, 0, none, 0⟩ sf rfl hnd
      (fun n hn => absurd hn (List.not_mem_nil n)) hwalk
    obtain ⟨B, Δ, heq, hBskel, hΔok⟩ := hbe
    have hB : B = [] := skelList_eq_nil (by rw [hBskel]; rfl)
    subst hB
    intro n hn
    rw [heq] at hn
    simp only [List.nil_append] at hn
    exact (hΔok n hn).1

def c7doc : Document := ⟨some "x"⟩

/-- A document with a paragraph and a reported warning (a
`system_message` child holding its own paragraph). -/
def c7tree : RstNode :=
  .mk 0 "document" {} [
    .mk 1 "paragraph" {} [.mk 2 "#text" {} [] "hello" 0] "" 0,
    .mk 3 "system_message"
      { level := some 2, line := some 1, source := some "<in>", msgType := some "WARNING" }
      [.mk 4 "paragraph" {} [.mk 5 "#text" {} [] "warn" 0] "" 0] "" 0] "" 0

/-- The state the traversal of `c7tree` ends in: the system message and
its collected paragraph live in `messages`, not in `nodes`. -/
def c7final : TState :=
  ⟨c7doc,
   [.paragraph 0 (some (.mk 1 "paragraph" {} [.mk 2 "#text" {} [] "hello" 0] "" 0)) "hello"],
   [.sysMessage 1
      (some (.mk 3 "system_message"
        { level := some 2, line := some 1, source := some "<in>", msgType := some "WARNING" }
        [.mk 4 "paragraph" {} [.mk 5 "#text" {} [] "warn" 0] "" 0] "" 0))
      ""
      [.paragraph 2 (some (.mk 4 "paragraph" {} [.mk 5 "#text" {} [] "warn" 0] "" 0)) "warn"]
      2 "<in>" 1 "WARNING"],
   some 2, 0, none, 3⟩

theorem c7_no_system_message_witness :
    (treeIds c7tree).Nodup ∧ runTranslator c7doc c7tree = some c7final ∧
      (∀ n ∈ c7final.nodes, noSM n = true) :=
  ⟨by decide, rfl, c7_no_system_message c7doc c7tree c7final (by decide) rfl⟩
